import Mathlib

/-! Shallow embedding of the University of Madras result-scraper (`app.py`).

Python dictionaries are modelled as insertion-ordered association lists over
strings, with Python dict-assignment semantics (`dinsert`): assigning to an
existing key updates the value in place, assigning to a fresh key appends.
Python string operations used by the scraper (`lower`, `upper`, `strip`,
substring `in`, `str(int)`) are modelled as ASCII-level functions on the
character lists underlying `String`. -/

namespace UoM

/-- Model of Python `str.lower` on one character (ASCII range, as used by the scraper). -/
def lowerChar (c : Char) : Char :=
  if 65 ≤ c.toNat ∧ c.toNat ≤ 90 then Char.ofNat (c.toNat + 32) else c

/-- Model of Python `str.upper` on one character (ASCII range). -/
def upperChar (c : Char) : Char :=
  if 97 ≤ c.toNat ∧ c.toNat ≤ 122 then Char.ofNat (c.toNat - 32) else c

/-- Model of Python `str.lower`. -/
def lowerStr (s : String) : String := String.mk (s.data.map lowerChar)

/-- Model of Python `str.upper`. -/
def upperStr (s : String) : String := String.mk (s.data.map upperChar)

def isSpaceChar (c : Char) : Bool := c == ' ' || c == '\t' || c == '\n' || c == '\r'

/-- Model of Python `str.strip`. -/
def strip (s : String) : String :=
  String.mk (((s.data.dropWhile isSpaceChar).reverse.dropWhile isSpaceChar).reverse)

def listStartsWith : List Char → List Char → Bool
  | [], _ => true
  | _ :: _, [] => false
  | p :: ps, c :: cs => p == c && listStartsWith ps cs

def occursIn (pat : List Char) : List Char → Bool
  | [] => listStartsWith pat []
  | c :: cs => listStartsWith pat (c :: cs) || occursIn pat cs

/-- Model of Python substring test `needle in hay`. -/
def substrB (needle hay : String) : Bool := occursIn needle.data hay.data

/-- An insertion-ordered Python dict from strings to strings. -/
abbrev Dict := List (String × String)

def dlookup (d : Dict) (k : String) : Option String :=
  (d.find? (fun p => p.1 == k)).map (fun p => p.2)

/-- Model of Python `k in d`. -/
def dmem (d : Dict) (k : String) : Bool := d.any (fun p => p.1 == k)

def dkeys (d : Dict) : List String := d.map (fun p => p.1)

/-- Model of Python `d[k] = v`: update the entry in place if the key exists
(keys are unique in a Python dict), else append a new entry. -/
def dinsert : Dict → String → String → Dict
  | [], k, v => [(k, v)]
  | kv :: t, k, v => if kv.1 = k then (k, v) :: t else kv :: dinsert t k v

/-- Model of Python `d.update(e)`. -/
def dupdate (d e : Dict) : Dict := e.foldl (fun acc kv => dinsert acc kv.1 kv.2) d

/-- Model of Python `d.get(k, dflt)`. -/
def dgetD (d : Dict) (k dflt : String) : String := (dlookup d k).getD dflt

/-- Decimal digit character (Python `str` of a digit). -/
def digitChar : Nat → Char
  | 0 => '0' | 1 => '1' | 2 => '2' | 3 => '3' | 4 => '4'
  | 5 => '5' | 6 => '6' | 7 => '7' | 8 => '8' | _ => '9'

def digitVal : Char → Nat
  | '0' => 0 | '1' => 1 | '2' => 2 | '3' => 3 | '4' => 4
  | '5' => 5 | '6' => 6 | '7' => 7 | '8' => 8 | _ => 9

def natReprAux : Nat → Nat → List Char
  | 0, _ => []
  | fuel + 1, n =>
    if n < 10 then [digitChar n]
    else natReprAux fuel (n / 10) ++ [digitChar (n % 10)]

def natDigits (n : Nat) : List Char := natReprAux (n + 1) n

/-- Model of Python `str(n)` for a natural number. -/
def natRepr (n : Nat) : String := String.mk (natDigits n)

/-! ### Result extractor (`scrape_result` lines 306-437)

A post-submission page is modelled by the data the Selenium calls return:
`source` is `driver.page_source`; `selectorHits` is, for each of the XPath
name selectors tried first, the list of texts of the elements it returns
(concatenated in selector order); `tables` is the list of tables, each a list
of rows, each row the list of its `td` cell texts; `boldTexts` is the list of
texts of `//b | //strong` elements. -/

structure Page where
  source : String
  selectorHits : List (List String)
  tables : List (List (List String))
  boldTexts : List String

/-- Candidate filter of the first name-extraction attempt (lines 330-339). -/
def accept1 (t : String) : Bool :=
  !(t == "") && 3 < t.length &&
    !(substrB "university" (lowerStr t)) && !(substrB "madras" (lowerStr t)) &&
    !(substrB "institution" (lowerStr t)) && !(substrB "college" (lowerStr t))

/-- Final verification applied to a found name element (lines 373-380). -/
def finalCheck (t : String) : Bool :=
  !(t == "") && !(substrB "university" (lowerStr t)) && !(substrB "madras" (lowerStr t)) &&
    3 < t.length

/-- One row of the second name-extraction attempt (lines 350-364): first cell
must mention name/student/candidate, second cell passes a weaker filter. -/
def path2Row (row : List String) : Option String :=
  match row with
  | c0 :: c1 :: _ =>
    let first := strip (lowerStr c0)
    if (substrB "name" first || substrB "student" first || substrB "candidate" first) = true then
      let second := strip c1
      if (!(second == "") && !(substrB "university" (lowerStr second)) &&
          !(substrB "madras" (lowerStr second)) && 3 < second.length) = true then
        some second
      else none
    else none
  | _ => none

/-- Candidate filter of the bold/strong fallback (lines 383-392). -/
def accept3 (t : String) : Bool :=
  3 < t.length && !(substrB ":" t) &&
    !(substrB "university" (lowerStr t)) && !(substrB "madras" (lowerStr t)) &&
    !(upperStr t == t)

def path1find (p : Page) : Option String :=
  ((p.selectorHits.flatten).map strip).find? accept1

def path2find (p : Page) : Option String :=
  (p.tables.flatten).findSome? path2Row

def path3find (p : Page) : Option String :=
  ((p.boldTexts).map strip).find? accept3

/-- Student-name extraction (lines 311-397): three ordered attempts, the first
two re-checked by `finalCheck`, with sentinel fallback. -/
def nameField (p : Page) : String :=
  match path1find p with
  | some t => if finalCheck t then t else "Name extraction failed"
  | none =>
    match path2find p with
    | some t => if finalCheck t then t else "Name extraction failed"
    | none =>
      match path3find p with
      | some t => t
      | none => "Name extraction failed"

/-- Cells from index 2 onward, stripped (lines 424-426). -/
def rowMarks (cells : List String) : List String := (cells.drop 2).map strip

/-- Sequential dict assignments `d[code_j] = mark` for the marks of one row,
`j` counting from the given start index (lines 431-432). -/
def writeMarks (d : Dict) (code : String) : Nat → List String → Dict
  | _, [] => d
  | j, m :: ms => writeMarks (dinsert d (code ++ "_" ++ natRepr j) m) code (j + 1) ms

/-- One table row of subject extraction (lines 407-432): rows with at least 3
cells whose stripped first cell is non-empty and at most 15 characters long
contribute positional keys `code_i`. -/
def processRow (d : Dict) (cells : List String) : Dict :=
  if 3 ≤ cells.length then
    let code := strip (cells.headD "")
    if code ≠ "" ∧ code.length ≤ 15 then writeMarks d code 0 (rowMarks cells)
    else d
  else d

/-- Subject/mark extraction over all tables (lines 399-434). -/
def subjectResults (tables : List (List (List String))) : Dict :=
  (tables.flatten).foldl processRow []

/-- Known error phrases of the submission classifier (lines 288-293). -/
def errorMessages : List String :=
  ["Invalid Register Number", "Invalid Date of Birth", "No Results Found", "Record not found"]

/-- First known error phrase occurring (case-insensitively) in the page source
(lines 295-296). -/
def knownErrorOf (src : String) : Option String :=
  errorMessages.find? (fun m => substrB (lowerStr m) (lowerStr src))

/-- Check that the page still displays the input form (line 444). -/
def formVisible (src : String) : Bool :=
  substrB "submit" (lowerStr src) && (substrB "regno" (lowerStr src) || substrB "dob" (lowerStr src))

/-! ### Retry controller (`scrape_result` lines 100-477) -/

/-- What one iteration of the retry loop runs into: one of the three
field-location failures, an exception raised anywhere in the body, or a
rendered post-submission page. -/
inductive AttemptInput where
  | regFieldMissing : AttemptInput
  | dobFieldMissing : AttemptInput
  | submitMissing : AttemptInput
  | exn : String → AttemptInput
  | page : Page → AttemptInput

inductive StepOut where
  | done : Dict → Bool → StepOut
  | formRetry : StepOut
  | exnRetry : String → StepOut

/-- Base of every success dict (lines 307-309 plus the Student Name field). -/
def baseResults (regno dob name : String) : Dict :=
  [("Register Number", regno), ("Date of Birth", dob), ("Student Name", name)]

/-- One iteration of the retry loop body, from field location (lines 112-281)
through the error classifier (lines 287-301) to extraction (lines 306-454). -/
def runAttempt (inp : AttemptInput) (regno dob : String) : StepOut :=
  match inp with
  | .regFieldMissing => .done [("Error", "Could not find registration number input field")] false
  | .dobFieldMissing => .done [("Error", "Could not find date of birth input field")] false
  | .submitMissing => .done [("Error", "Could not find submit button")] false
  | .exn m => .exnRetry m
  | .page p =>
    match knownErrorOf p.source with
    | some m =>
      .done [("Error", "Website returned error: " ++ m),
             ("Register Number", regno), ("Date of Birth", dob)] false
    | none =>
      let sr := subjectResults p.tables
      if sr.isEmpty then
        if formVisible p.source then .formRetry
        else .done [("Error", "Could not extract subject data from results page"),
                    ("Register Number", regno), ("Date of Birth", dob)] false
      else .done (dupdate (baseResults regno dob (nameField p)) sr) true

/-- The `while retries < max_retries` loop (lines 101-477); `k` is the number
of loop iterations still permitted (`maxRetries - retries`).  The returned
`Nat` counts the attempts (loop iterations) that were executed; the exception
path re-checks the bound after incrementing (lines 456-470). -/
def scrapeGo (trace : Nat → AttemptInput) (regno dob : String) (maxRetries : Nat) :
    Nat → Nat → Dict × Bool × Nat
  | 0, retries =>
    ([("Error", "Maximum retries exceeded"),
      ("Register Number", regno), ("Date of Birth", dob)], false, retries)
  | k + 1, retries =>
    match runAttempt (trace retries) regno dob with
    | .done d s => (d, s, retries + 1)
    | .formRetry => scrapeGo trace regno dob maxRetries k (retries + 1)
    | .exnRetry m =>
      if maxRetries ≤ retries + 1 then
        ([("Error", "Exception: " ++ m),
          ("Register Number", regno), ("Date of Birth", dob)], false, retries + 1)
      else scrapeGo trace regno dob maxRetries k (retries + 1)

/-- `scrape_result(driver, reg_no, dob, max_retries)`: the retry controller.
The i-th loop iteration runs into `trace i`.  Returns the result dict, the
success flag, and (model instrumentation) the number of attempts executed. -/
def scrape_result (trace : Nat → AttemptInput) (regno dob : String) (maxRetries : Nat) :
    Dict × Bool × Nat :=
  scrapeGo trace regno dob maxRetries maxRetries 0

/-! ### Per-student wrapper and batch loop (`get_result` lines 592-639, batch lines 739-748) -/

/-- Environment of one `get_result` call: driver setup may fail (line 599),
an exception may escape (line 635), or the scrape runs against a trace. -/
inductive WorldInput where
  | driverFail : WorldInput
  | outerExn : String → WorldInput
  | ok : (Nat → AttemptInput) → WorldInput

/-- `get_result(regno, dob, ...)`: wraps `scrape_result` with the default
`max_retries=3` (line 603); UI, delay and debug side effects carry no data. -/
def get_result (w : WorldInput) (regno dob : String) : Dict × Bool :=
  match w with
  | .driverFail => ([("Error", "Failed to initialize browser driver")], false)
  | .outerExn m => ([("Error", m), ("Register Number", regno), ("Date of Birth", dob)], false)
  | .ok trace =>
    let r := scrape_result trace regno dob 3
    (r.1, r.2.1)

def batchAux (world : Nat → WorldInput) : List (String × String) → Nat → List Dict → List Dict
  | [], _, acc => acc
  | q :: qs, i, acc => batchAux world qs (i + 1) (acc ++ [(get_result (world i) q.1 q.2).1])

/-- The batch loop (lines 741-748): one `get_result` per `(reg_no, dob)` pair
of the zipped query list, appending each result dict in order. -/
def batchResults (world : Nat → WorldInput) (queries : List (String × String)) : List Dict :=
  batchAux world queries 0 []

/-! ### Batch normalizer (`process_results_for_export` lines 509-590) -/

/-- The anchored regular expression of line 530 matching keys
of shape alphanumeric-code, underscore, decimal digits; yields the code and
the parsed position.  The code group is `[A-Za-z0-9]+` so the separating
underscore is necessarily the last underscore of the key. -/
def parseSubjectKey (k : String) : Option (String × Nat) :=
  match (k.data.reverse).drop ((k.data.reverse).takeWhile Char.isDigit).length with
  | '_' :: rest =>
    if ((k.data.reverse).takeWhile Char.isDigit).isEmpty then none
    else if rest.isEmpty then none
    else if rest.all Char.isAlphanum then
      some (String.mk rest.reverse,
        (((k.data.reverse).takeWhile Char.isDigit).reverse).foldl
          (fun a c => 10 * a + digitVal c) 0)
    else none
  | _ => none

/-- Record one observed (code, position) pair in the subject-position registry
(lines 538-543): positions form a set per code; codes in first-seen order. -/
def regInsert (reg : List (String × List Nat)) (code : String) (pos : Nat) :
    List (String × List Nat) :=
  if reg.any (fun e => e.1 == code) then
    reg.map (fun e =>
      if e.1 == code then
        (e.1, if e.2.any (fun q => q == pos) then e.2 else e.2 ++ [pos])
      else e)
  else reg ++ [(code, [pos])]

/-- First pass (lines 527-543): collect subject codes and their observed
positions over all successful results. -/
def buildRegistry (successes : List Dict) : List (String × List Nat) :=
  successes.foldl
    (fun reg r =>
      r.foldl
        (fun reg kv =>
          match parseSubjectKey kv.1 with
          | some cp => regInsert reg cp.1 cp.2
          | none => reg)
        reg)
    []

/-- Code-point lexicographic order on character lists: the order Python
`sorted` uses on strings. -/
def charListLe : List Char → List Char → Bool
  | [], _ => true
  | _ :: _, [] => false
  | a :: as, b :: bs =>
    if a.toNat < b.toNat then true
    else if b.toNat < a.toNat then false
    else charListLe as bs

def strLe (a b : String) : Bool := charListLe a.data b.data

/-- The order `sorted` uses on subject codes, as a proposition. -/
def SLe (a b : String) : Prop := strLe a b = true

instance : DecidableRel SLe := fun a b => inferInstanceAs (Decidable (strLe a b = true))

def sortStrings (l : List String) : List String := List.insertionSort SLe l

def sortNats (l : List Nat) : List Nat := List.insertionSort (fun a b : Nat => a ≤ b) l

def posOf (reg : List (String × List Nat)) (code : String) : List Nat :=
  match reg.find? (fun e => e.1 == code) with
  | some e => e.2
  | none => []

/-- `sorted(list(all_subject_codes))` (line 546). -/
def sortedCodes (reg : List (String × List Nat)) : List String :=
  sortStrings (reg.map (fun e => e.1))

/-- The (column name, result key) pairs written for one row, in write order
(lines 559-575): per code in sorted order, per observed position in sorted
order; a code with a single observed position collapses to the bare code. -/
def columnSpecs (reg : List (String × List Nat)) : List (String × String) :=
  (sortedCodes reg).flatMap (fun code =>
    let ps := sortNats (posOf reg code)
    ps.map (fun p =>
      (if 1 < ps.length then code ++ "_" ++ natRepr p else code,
       code ++ "_" ++ natRepr p)))

/-- The column names of one subject code, in position order. -/
def codeColumns (reg : List (String × List Nat)) (code : String) : List String :=
  (sortNats (posOf reg code)).map (fun p =>
    if 1 < (sortNats (posOf reg code)).length then code ++ "_" ++ natRepr p else code)

/-- Second pass, one row (lines 552-575): leading NAME/REG NO/DOB, then one
dict assignment per column spec, filling absent keys with the empty string. -/
def rowFor (reg : List (String × List Nat)) (r : Dict) : Dict :=
  (columnSpecs reg).foldl
    (fun row cs =>
      dinsert row cs.1 (match dlookup r cs.2 with | some v => v | none => ""))
    [("NAME", dgetD r "Student Name" ""), ("REG NO", dgetD r "Register Number" ""),
     ("DOB", dgetD r "Date of Birth" "")]

/-- The normalizer with the registry passed explicitly: the registry is built
from Python `set`/`dict` structures whose iteration order is a representation
detail, so the export is parameterized by the chosen representation. -/
def processWithRep (rep : List (String × List Nat)) (all_results : List Dict) :
    List Dict × List Dict :=
  let failed := all_results.filter (fun r => dmem r "Error")
  let succ := all_results.filter (fun r => !(dmem r "Error"))
  (succ.map (rowFor rep), failed)

/-- `process_results_for_export(all_results)` (lines 509-590): partition by the
`Error` key, build the registry over the successes, emit one aligned row per
success and the failures as-is. -/
def process_results_for_export (all_results : List Dict) : List Dict × List Dict :=
  processWithRep (buildRegistry (all_results.filter (fun r => !(dmem r "Error")))) all_results

/-! ### Specification-side predicates -/

/-- Decidable check that a key has the subject-key shape produced by the
extractor: a non-empty prefix, an underscore, and a non-empty decimal suffix. -/
def subjShaped (k : String) : Bool :=
  match (k.data.reverse).takeWhile Char.isDigit,
        (k.data.reverse).drop ((k.data.reverse).takeWhile Char.isDigit).length with
  | _ :: _, '_' :: _ :: _ => true
  | _, _ => false

/-- The dict has at least one key of the form code-underscore-position. -/
def hasSubjKey (d : Dict) : Bool := (dkeys d).any subjShaped

/-- A key literally built by the extractor as `code_position`. -/
def Shaped (k : String) : Prop := ∃ c i, c ≠ "" ∧ k = c ++ "_" ++ natRepr i

/-- Invariant of every terminal outcome of the retry controller: success flag
iff no `Error` key iff at least one subject key; failed results carry the
original query values unless they hold only the `Error` key. -/
def GoodOut (regno dob : String) (out : Dict × Bool × Nat) : Prop :=
  (out.2.1 = true ∧ dmem out.1 "Error" = false ∧ hasSubjKey out.1 = true) ∨
  (out.2.1 = false ∧ dmem out.1 "Error" = true ∧ hasSubjKey out.1 = false ∧
    ((dlookup out.1 "Register Number" = some regno ∧ dlookup out.1 "Date of Birth" = some dob) ∨
      dkeys out.1 = ["Error"]))

/-- The keys one qualifying subject row assigns, mirroring `writeMarks`. -/
def markKeys (code : String) : Nat → List String → List String
  | _, [] => []
  | j, _ :: ms => (code ++ "_" ++ natRepr j) :: markKeys code (j + 1) ms

/-- Whether processing this table row assigns the key `k`. -/
def rowWrites (cells : List String) (k : String) : Bool :=
  if 3 ≤ cells.length then
    if strip (cells.headD "") ≠ "" ∧ (strip (cells.headD "")).length ≤ 15 then
      (markKeys (strip (cells.headD "")) 0 (rowMarks cells)).any (fun key => key == k)
    else false
  else false

/-- Well-formedness of the subject-position registry: codes are distinct,
non-empty and alphanumeric; position sets have no duplicates. -/
def RegWF (reg : List (String × List Nat)) : Prop :=
  (reg.map (fun e => e.1)).Nodup ∧
  ∀ e ∈ reg, e.1 ≠ "" ∧ e.1.data.all Char.isAlphanum = true ∧ e.2.Nodup

/-- `rep` is a representation of the same subject-position registry as
`canonical`: same codes and, code by code, the same set of positions, in any
iteration order (Python `set`/`dict` iteration order is unspecified). -/
def RepOf (canonical rep : List (String × List Nat)) : Prop :=
  (rep.map (fun e => e.1)).Perm (canonical.map (fun e => e.1)) ∧
  ∀ c ∈ canonical.map (fun e => e.1), (posOf rep c).Perm (posOf canonical c)

/-! ### Concrete instances used by counterexamples and witnesses -/

/-- A results page whose only name candidate contains the token "college". -/
def collegePage : Page :=
  { source := "", selectorHits := [], tables := [[["Name", "Good College"]]], boldTexts := [] }

def namePage1 : Page :=
  { source := "", selectorHits := [["  John Doe "]], tables := [], boldTexts := [] }

def namePage2 : Page :=
  { source := "", selectorHits := [], tables := [[["Name", " Jane Roe "]]], boldTexts := [] }

def namePage3 : Page :=
  { source := "", selectorHits := [], tables := [], boldTexts := ["Jane d"] }

def emptyPage : Page :=
  { source := "", selectorHits := [], tables := [], boldTexts := [] }

/-- A post-submission page still showing the input form, with no extractable
subject data: the transient retry case. -/
def formStillVisiblePage : Page :=
  { source := "regno dob submit", selectorHits := [], tables := [], boldTexts := [] }

/-- A post-submission page carrying a known error phrase. -/
def invalidRegPage : Page :=
  { source := "The server said: Invalid Register Number.", selectorHits := [],
    tables := [], boldTexts := [] }

/-- A successful results page for the batch examples. -/
def okPage : Page :=
  { source := "results", selectorHits := [["  Carol Ann "]],
    tables := [[["ENG", "English", "78", "B", "A"]]], boldTexts := [] }

def exSuccess1 : Dict :=
  [("Student Name", "ALICE"), ("Register Number", "111"), ("Date of Birth", "01/01/2000"),
   ("MTH101_0", "78"), ("MTH101_2", "A"), ("PHY101_0", "65")]

def exSuccess2 : Dict :=
  [("Student Name", "BOB"), ("Register Number", "222"), ("Date of Birth", "02/02/2000"),
   ("MTH101_0", "81"), ("MTH101_2", "B")]

def exFailure1 : Dict :=
  [("Error", "Website returned error: Invalid Register Number"),
   ("Register Number", "333"), ("Date of Birth", "03/03/2000")]

def exResults : List Dict := [exSuccess1, exSuccess2, exFailure1]

def exRegistry : List (String × List Nat) :=
  buildRegistry (exResults.filter (fun r => !(dmem r "Error")))

/-! ### Dictionary lemmas -/

theorem dlookup_cons (kv : String × String) (t : Dict) (k : String) :
    dlookup (kv :: t) k = if kv.1 = k then some kv.2 else dlookup t k := by
  unfold dlookup
  rw [List.find?]
  by_cases h : kv.1 = k
  · simp [h]
  · rw [show (kv.1 == k) = false by simp [h], if_neg h]

theorem dmem_cons (kv : String × String) (t : Dict) (k : String) :
    dmem (kv :: t) k = ((kv.1 == k) || dmem t k) := by
  simp [dmem]

theorem dmem_iff (d : Dict) (k : String) : dmem d k = true ↔ k ∈ dkeys d := by
  induction d with
  | nil => simp [dmem, dkeys]
  | cons kv t ih =>
    rw [dmem_cons]
    by_cases h : kv.1 = k
    · simp [dkeys, h]
    · simp only [dkeys, List.map_cons, List.mem_cons]
      rw [show (kv.1 == k) = false by simp [h], Bool.false_or]
      rw [ih]
      simp [dkeys, Ne.symm h]

theorem dmem_false_iff (d : Dict) (k : String) :
    dmem d k = false ↔ ∀ kv ∈ d, kv.1 ≠ k := by
  simp [dmem]

theorem dmem_dinsert (d : Dict) (k v k' : String) :
    dmem (dinsert d k v) k' = (dmem d k' || (k' == k)) := by
  induction d with
  | nil =>
    by_cases h : k' = k
    · simp [dinsert, dmem, h]
    · simp [dinsert, dmem, h, Ne.symm h]
  | cons kv t ih =>
    rw [dinsert]
    by_cases h : kv.1 = k
    · rw [if_pos h, dmem_cons, dmem_cons]
      by_cases h2 : k' = k
      · simp [h2, h]
      · rw [show (k == k') = false by simp [Ne.symm h2]]
        rw [show (k' == k) = false by simp [h2]]
        rw [show (kv.1 == k') = false by rw [h]; simp [Ne.symm h2]]
        simp
    · rw [if_neg h, dmem_cons, dmem_cons, ih, Bool.or_assoc]

theorem dlookup_dinsert_self (d : Dict) (k v : String) :
    dlookup (dinsert d k v) k = some v := by
  induction d with
  | nil => simp [dinsert, dlookup_cons]
  | cons kv t ih =>
    rw [dinsert]
    by_cases h : kv.1 = k
    · rw [if_pos h, dlookup_cons]
      simp
    · rw [if_neg h, dlookup_cons, if_neg h]
      exact ih

theorem dlookup_dinsert_ne (d : Dict) (k v k' : String) (h : k' ≠ k) :
    dlookup (dinsert d k v) k' = dlookup d k' := by
  induction d with
  | nil => simp [dinsert, dlookup_cons, Ne.symm h, dlookup]
  | cons kv t ih =>
    rw [dinsert]
    by_cases hk : kv.1 = k
    · rw [if_pos hk, dlookup_cons, dlookup_cons]
      rw [if_neg (Ne.symm h), if_neg (by rw [hk]; exact Ne.symm h)]
    · rw [if_neg hk, dlookup_cons, dlookup_cons, ih]

theorem dkeys_dinsert_mem (d : Dict) (k v : String) (h : dmem d k = true) :
    dkeys (dinsert d k v) = dkeys d := by
  induction d with
  | nil => simp [dmem] at h
  | cons kv t ih =>
    rw [dinsert]
    by_cases hk : kv.1 = k
    · rw [if_pos hk]
      simp [dkeys, hk]
    · rw [if_neg hk]
      have h2 : dmem t k = true := by
        rw [dmem_cons] at h
        rw [show (kv.1 == k) = false by simp [hk]] at h
        simpa using h
      simp [dkeys] at ih ⊢
      exact ih h2

theorem dkeys_dinsert_new (d : Dict) (k v : String) (h : dmem d k = false) :
    dkeys (dinsert d k v) = dkeys d ++ [k] := by
  induction d with
  | nil => simp [dinsert, dkeys]
  | cons kv t ih =>
    rw [dmem_cons] at h
    have h1 : kv.1 ≠ k := by
      intro he
      simp [he] at h
    have h2 : dmem t k = false := by
      rcases Bool.or_eq_false_iff.mp h with ⟨_, h2⟩
      exact h2
    rw [dinsert, if_neg h1]
    simp only [dkeys, List.map_cons, List.cons_append]
    rw [show List.map (fun p => p.1) (dinsert t k v) = dkeys (dinsert t k v) from rfl, ih h2]
    rfl

theorem nodup_dkeys_dinsert (d : Dict) (k v : String) (h : (dkeys d).Nodup) :
    (dkeys (dinsert d k v)).Nodup := by
  cases hm : dmem d k with
  | true => rw [dkeys_dinsert_mem d k v hm]; exact h
  | false =>
    rw [dkeys_dinsert_new d k v hm]
    rw [List.nodup_append]
    refine ⟨h, List.nodup_singleton k, ?_⟩
    intro x hx hx2
    simp at hx2
    subst hx2
    exact absurd ((dmem_iff d x).mpr hx) (by simp [hm])

theorem mem_dinsert_of (P : String → Prop) (d : Dict) (k v : String)
    (hd : ∀ kv ∈ d, P kv.1) (hk : P k) : ∀ kv ∈ dinsert d k v, P kv.1 := by
  induction d with
  | nil =>
    intro kv h
    simp only [dinsert, List.mem_singleton] at h
    rw [h]
    exact hk
  | cons a t ih =>
    intro kv h
    rw [dinsert] at h
    by_cases ha : a.1 = k
    · rw [if_pos ha] at h
      rcases List.mem_cons.mp h with h1 | h2
      · rw [h1]; exact hk
      · exact hd kv (List.mem_cons_of_mem a h2)
    · rw [if_neg ha] at h
      rcases List.mem_cons.mp h with h1 | h2
      · rw [h1]; exact hd a (List.mem_cons_self a t)
      · exact ih (fun x hx => hd x (List.mem_cons_of_mem a hx)) kv h2

theorem dmem_dupdate (d e : Dict) (k : String) :
    dmem (dupdate d e) k = (dmem d k || e.any (fun kv => kv.1 == k)) := by
  induction e generalizing d with
  | nil => simp [dupdate]
  | cons kv t ih =>
    show dmem (dupdate (dinsert d kv.1 kv.2) t) k = _
    rw [ih, dmem_dinsert]
    by_cases h : k = kv.1
    · simp [h]
    · rw [show (k == kv.1) = false by simp [h]]
      rw [List.any_cons, show (kv.1 == k) = false by simp [Ne.symm h]]
      simp

theorem mem_dupdate_of (P : String → Prop) (d e : Dict)
    (hd : ∀ kv ∈ d, P kv.1) (he : ∀ kv ∈ e, P kv.1) : ∀ kv ∈ dupdate d e, P kv.1 := by
  induction e generalizing d with
  | nil => exact hd
  | cons kv t ih =>
    refine ih (dinsert d kv.1 kv.2) ?_ (fun x hx => he x (List.mem_cons_of_mem kv hx))
    exact mem_dinsert_of P d kv.1 kv.2 hd (he kv (List.mem_cons_self kv t))

/-! ### Decimal representation lemmas -/

theorem char_toNat_inj {a b : Char} (h : a.toNat = b.toNat) : a = b := by
  apply Char.eq_of_val_eq
  apply UInt32.toNat.inj
  exact h

theorem natReprAux_congr : ∀ (f1 f2 n : Nat), n < f1 → n < f2 →
    natReprAux f1 n = natReprAux f2 n := by
  intro f1
  induction f1 with
  | zero => intro f2 n h1; omega
  | succ g ih =>
    intro f2 n h1 h2
    cases f2 with
    | zero => omega
    | succ h =>
      rw [natReprAux, natReprAux]
      by_cases hn : n < 10
      · rw [if_pos hn, if_pos hn]
      · rw [if_neg hn, if_neg hn]
        have hd : n / 10 < n := Nat.div_lt_self (by omega) (by omega)
        rw [ih h (n / 10) (by omega) (by omega)]

theorem natDigits_eq (n : Nat) :
    natDigits n = if n < 10 then [digitChar n]
                  else natDigits (n / 10) ++ [digitChar (n % 10)] := by
  unfold natDigits
  rw [natReprAux]
  by_cases hn : n < 10
  · rw [if_pos hn, if_pos hn]
  · rw [if_neg hn, if_neg hn]
    have hd : n / 10 < n := Nat.div_lt_self (by omega) (by omega)
    rw [natReprAux_congr n (n / 10 + 1) (n / 10) (by omega) (by omega)]

theorem natDigits_ne_nil (n : Nat) : natDigits n ≠ [] := by
  rw [natDigits_eq]
  by_cases hn : n < 10
  · rw [if_pos hn]; simp
  · rw [if_neg hn]; simp

theorem digitChar_isDigit (d : Nat) : (digitChar d).isDigit = true := by
  unfold digitChar
  split <;> decide

theorem digitVal_digitChar (d : Nat) (h : d < 10) : digitVal (digitChar d) = d := by
  interval_cases d <;> decide

theorem natDigits_all_digit (n : Nat) : ∀ c ∈ natDigits n, c.isDigit = true := by
  induction n using Nat.strong_induction_on with
  | _ n ih =>
    intro c hc
    rw [natDigits_eq] at hc
    by_cases hn : n < 10
    · rw [if_pos hn] at hc
      simp at hc
      rw [hc]
      exact digitChar_isDigit n
    · rw [if_neg hn] at hc
      rcases List.mem_append.mp hc with h1 | h2
      · exact ih (n / 10) (Nat.div_lt_self (by omega) (by omega)) c h1
      · simp at h2
        rw [h2]
        exact digitChar_isDigit (n % 10)

theorem natDigits_val (n : Nat) :
    (natDigits n).foldl (fun a c => 10 * a + digitVal c) 0 = n := by
  induction n using Nat.strong_induction_on with
  | _ n ih =>
    rw [natDigits_eq]
    by_cases hn : n < 10
    · rw [if_pos hn]
      simp [List.foldl, digitVal_digitChar n hn]
    · rw [if_neg hn]
      rw [List.foldl_append]
      rw [ih (n / 10) (Nat.div_lt_self (by omega) (by omega))]
      show 10 * (n / 10) + digitVal (digitChar (n % 10)) = n
      rw [digitVal_digitChar (n % 10) (by omega)]
      omega

theorem natDigits_inj {m n : Nat} (h : natDigits m = natDigits n) : m = n := by
  have hm := natDigits_val m
  have hn := natDigits_val n
  rw [h] at hm
  exact hm.symm.trans hn

theorem natRepr_inj {m n : Nat} (h : natRepr m = natRepr n) : m = n := by
  unfold natRepr at h
  exact natDigits_inj (by injection h)

theorem natRepr_data (n : Nat) : (natRepr n).data = natDigits n := rfl

/-! ### Subject-key shape lemmas -/

theorem takeWhile_append_all (p : Char → Bool) (l1 l2 : List Char)
    (h : ∀ x ∈ l1, p x = true) :
    (l1 ++ l2).takeWhile p = l1 ++ l2.takeWhile p := by
  induction l1 with
  | nil => simp
  | cons a t ih =>
    have ha : p a = true := h a (List.mem_cons_self a t)
    simp only [List.cons_append]
    rw [List.takeWhile_cons, if_pos ha, ih (fun x hx => h x (List.mem_cons_of_mem a hx))]

theorem takeWhile_cons_false (p : Char → Bool) (x : Char) (l : List Char)
    (h : p x = false) : (x :: l).takeWhile p = [] := by
  rw [List.takeWhile_cons, if_neg (by simp [h])]

/-- The key `c_i` written by the extractor, as a character list. -/
theorem mkKey_data (c : String) (i : Nat) :
    (c ++ "_" ++ natRepr i).data = c.data ++ '_' :: natDigits i := by
  rw [String.data_append, String.data_append]
  rw [natRepr_data]
  show c.data ++ ['_'] ++ natDigits i = _
  rw [List.append_assoc]
  rfl

theorem subjShaped_mk (c : String) (hc : c ≠ "") (i : Nat) :
    subjShaped (c ++ "_" ++ natRepr i) = true := by
  have hdata : (c ++ "_" ++ natRepr i).data.reverse
      = (natDigits i).reverse ++ '_' :: c.data.reverse := by
    rw [mkKey_data, List.reverse_append, List.reverse_cons, List.append_assoc]
    rfl
  have htw : ((natDigits i).reverse ++ '_' :: c.data.reverse).takeWhile Char.isDigit
      = (natDigits i).reverse := by
    rw [takeWhile_append_all Char.isDigit _ _
        (fun x hx => natDigits_all_digit i x (List.mem_reverse.mp hx))]
    rw [takeWhile_cons_false Char.isDigit '_' c.data.reverse (by decide), List.append_nil]
  obtain ⟨d0, ds, hds⟩ : ∃ d0 ds, (natDigits i).reverse = d0 :: ds := by
    cases hd : (natDigits i).reverse with
    | nil =>
      exfalso
      apply natDigits_ne_nil i
      have := congrArg List.reverse hd
      simpa using this
    | cons d0 ds => exact ⟨d0, ds, rfl⟩
  obtain ⟨e0, es, hes⟩ : ∃ e0 es, c.data.reverse = e0 :: es := by
    cases he : c.data.reverse with
    | nil =>
      exfalso
      have hcd : c.data = [] := by
        have := congrArg List.reverse he
        simpa using this
      apply hc
      apply String.ext
      rw [hcd]
    | cons e0 es => exact ⟨e0, es, rfl⟩
  unfold subjShaped
  rw [hdata, htw, List.drop_left, hds, hes]
  rfl

theorem Shaped_subjShaped {k : String} (h : Shaped k) : subjShaped k = true := by
  obtain ⟨c, i, hc, hk⟩ := h
  rw [hk]
  exact subjShaped_mk c hc i

theorem Shaped_ne_of_not_shaped {k k' : String} (h : Shaped k)
    (h2 : subjShaped k' = false) : k ≠ k' := by
  intro he
  rw [he] at h
  rw [Shaped_subjShaped h] at h2
  cases h2

/-! ### Extractor key lemmas -/

theorem mem_writeMarks_shaped (code : String) (hcode : code ≠ "") :
    ∀ (ms : List String) (j : Nat) (d : Dict), (∀ kv ∈ d, Shaped kv.1) →
    ∀ kv ∈ writeMarks d code j ms, Shaped kv.1 := by
  intro ms
  induction ms with
  | nil => intro j d hd kv h; exact hd kv h
  | cons m t ih =>
    intro j d hd kv h
    rw [writeMarks] at h
    refine ih (j + 1) _ ?_ kv h
    exact mem_dinsert_of Shaped d _ m hd ⟨code, j, hcode, rfl⟩

theorem mem_processRow_shaped (d : Dict) (cells : List String)
    (hd : ∀ kv ∈ d, Shaped kv.1) : ∀ kv ∈ processRow d cells, Shaped kv.1 := by
  unfold processRow
  by_cases h3 : 3 ≤ cells.length
  · rw [if_pos h3]
    by_cases hc : strip (cells.headD "") ≠ "" ∧ (strip (cells.headD "")).length ≤ 15
    · rw [if_pos hc]
      exact mem_writeMarks_shaped _ hc.1 _ 0 d hd
    · rw [if_neg hc]
      exact hd
  · rw [if_neg h3]
    exact hd

theorem foldl_processRow_shaped : ∀ (rows : List (List String)) (d : Dict),
    (∀ kv ∈ d, Shaped kv.1) → ∀ kv ∈ rows.foldl processRow d, Shaped kv.1 := by
  intro rows
  induction rows with
  | nil => intro d hd; exact hd
  | cons r t ih =>
    intro d hd
    exact ih (processRow d r) (mem_processRow_shaped d r hd)

theorem subjectResults_shaped (tables : List (List (List String))) :
    ∀ kv ∈ subjectResults tables, Shaped kv.1 := by
  unfold subjectResults
  exact foldl_processRow_shaped (tables.flatten) [] (by intro kv h; cases h)

theorem nodup_dkeys_writeMarks (code : String) :
    ∀ (ms : List String) (j : Nat) (d : Dict), (dkeys d).Nodup →
    (dkeys (writeMarks d code j ms)).Nodup := by
  intro ms
  induction ms with
  | nil => intro j d hd; exact hd
  | cons m t ih =>
    intro j d hd
    rw [writeMarks]
    exact ih (j + 1) _ (nodup_dkeys_dinsert d _ m hd)

theorem nodup_dkeys_processRow (d : Dict) (cells : List String)
    (hd : (dkeys d).Nodup) : (dkeys (processRow d cells)).Nodup := by
  unfold processRow
  by_cases h3 : 3 ≤ cells.length
  · rw [if_pos h3]
    by_cases hc : strip (cells.headD "") ≠ "" ∧ (strip (cells.headD "")).length ≤ 15
    · rw [if_pos hc]
      exact nodup_dkeys_writeMarks _ _ 0 d hd
    · rw [if_neg hc]
      exact hd
  · rw [if_neg h3]
    exact hd

theorem nodup_dkeys_foldl_processRow : ∀ (rows : List (List String)) (d : Dict),
    (dkeys d).Nodup → (dkeys (rows.foldl processRow d)).Nodup := by
  intro rows
  induction rows with
  | nil => intro d hd; exact hd
  | cons r t ih => intro d hd; exact ih (processRow d r) (nodup_dkeys_processRow d r hd)

/-! ### The terminal-outcome invariant of the retry controller -/

theorem runAttempt_done_good (inp : AttemptInput) (regno dob : String) (d : Dict) (s : Bool)
    (h : runAttempt inp regno dob = .done d s) :
    (s = true ∧ dmem d "Error" = false ∧ hasSubjKey d = true) ∨
    (s = false ∧ dmem d "Error" = true ∧ hasSubjKey d = false ∧
      ((dlookup d "Register Number" = some regno ∧ dlookup d "Date of Birth" = some dob) ∨
        dkeys d = ["Error"])) := by
  cases inp with
  | regFieldMissing =>
    rw [runAttempt] at h
    injection h with h1 h2
    subst h1
    subst h2
    exact Or.inr ⟨rfl, rfl, rfl, Or.inr rfl⟩
  | dobFieldMissing =>
    rw [runAttempt] at h
    injection h with h1 h2
    subst h1
    subst h2
    exact Or.inr ⟨rfl, rfl, rfl, Or.inr rfl⟩
  | submitMissing =>
    rw [runAttempt] at h
    injection h with h1 h2
    subst h1
    subst h2
    exact Or.inr ⟨rfl, rfl, rfl, Or.inr rfl⟩
  | exn m =>
    rw [runAttempt] at h
    cases h
  | page p =>
    rw [runAttempt] at h
    cases hk : knownErrorOf p.source with
    | some m =>
      rw [hk] at h
      injection h with h1 h2
      subst h1
      subst h2
      exact Or.inr ⟨rfl, rfl, rfl, Or.inl ⟨rfl, rfl⟩⟩
    | none =>
      rw [hk] at h
      simp only at h
      by_cases hsr : (subjectResults p.tables).isEmpty = true
      · rw [if_pos hsr] at h
        by_cases hfv : formVisible p.source = true
        · rw [if_pos hfv] at h
          cases h
        · rw [if_neg hfv] at h
          injection h with h1 h2
          subst h1
          subst h2
          exact Or.inr ⟨rfl, rfl, rfl, Or.inl ⟨rfl, rfl⟩⟩
      · rw [if_neg hsr] at h
        injection h with h1 h2
        subst h1
        subst h2
        left
        refine ⟨rfl, ?_, ?_⟩
        · rw [dmem_dupdate]
          have h1 : dmem (baseResults regno dob (nameField p)) "Error" = false := rfl
          have h2 : (subjectResults p.tables).any (fun kv => kv.1 == "Error") = false := by
            apply Bool.eq_false_iff.mpr
            intro hany
            obtain ⟨kv, hm, he⟩ := List.any_eq_true.mp hany
            have hne := Shaped_ne_of_not_shaped
              (subjectResults_shaped p.tables kv hm) (show subjShaped "Error" = false by decide)
            exact hne (by simpa using he)
          rw [h1, h2]
          rfl
        · obtain ⟨kv, t, hsrc⟩ : ∃ kv t, subjectResults p.tables = kv :: t := by
            cases hc : subjectResults p.tables with
            | nil => rw [hc] at hsr; simp [List.isEmpty] at hsr
            | cons kv t => exact ⟨kv, t, rfl⟩
          have hmem : dmem (dupdate (baseResults regno dob (nameField p))
              (subjectResults p.tables)) kv.1 = true := by
            rw [dmem_dupdate]
            have : (subjectResults p.tables).any (fun x => x.1 == kv.1) = true := by
              rw [List.any_eq_true]
              exact ⟨kv, by rw [hsrc]; exact List.mem_cons_self kv t, by simp⟩
            rw [this]
            simp
          have hkm : kv.1 ∈ dkeys (dupdate (baseResults regno dob (nameField p))
              (subjectResults p.tables)) := (dmem_iff _ _).mp hmem
          unfold hasSubjKey
          rw [List.any_eq_true]
          refine ⟨kv.1, hkm, ?_⟩
          exact Shaped_subjShaped (subjectResults_shaped p.tables kv
            (by rw [hsrc]; exact List.mem_cons_self kv t))

theorem scrapeGo_good (trace : Nat → AttemptInput) (regno dob : String) (maxRetries : Nat) :
    ∀ (k retries : Nat), GoodOut regno dob (scrapeGo trace regno dob maxRetries k retries) := by
  intro k
  induction k with
  | zero =>
    intro retries
    exact Or.inr ⟨rfl, rfl, rfl, Or.inl ⟨rfl, rfl⟩⟩
  | succ k ih =>
    intro retries
    rw [scrapeGo]
    cases hra : runAttempt (trace retries) regno dob with
    | done d s =>
      exact runAttempt_done_good (trace retries) regno dob d s hra
    | formRetry =>
      exact ih (retries + 1)
    | exnRetry m =>
      show GoodOut regno dob
        (if maxRetries ≤ retries + 1 then
          ([("Error", "Exception: " ++ m), ("Register Number", regno), ("Date of Birth", dob)],
           false, retries + 1)
        else scrapeGo trace regno dob maxRetries k (retries + 1))
      by_cases hb : maxRetries ≤ retries + 1
      · rw [if_pos hb]
        exact Or.inr ⟨rfl, rfl, rfl, Or.inl ⟨rfl, rfl⟩⟩
      · rw [if_neg hb]
        exact ih (retries + 1)

theorem scrape_result_good (trace : Nat → AttemptInput) (regno dob : String) (maxRetries : Nat) :
    GoodOut regno dob (scrape_result trace regno dob maxRetries) :=
  scrapeGo_good trace regno dob maxRetries maxRetries 0

/-! ### Batch loop lemmas -/

theorem batchAux_acc (world : Nat → WorldInput) :
    ∀ (qs : List (String × String)) (i : Nat) (acc : List Dict),
    batchAux world qs i acc = acc ++ batchAux world qs i [] := by
  intro qs
  induction qs with
  | nil => intro i acc; simp [batchAux]
  | cons q t ih =>
    intro i acc
    rw [batchAux, batchAux]
    rw [ih (i + 1) (acc ++ [(get_result (world i) q.1 q.2).1]),
        ih (i + 1) ([] ++ [(get_result (world i) q.1 q.2).1])]
    simp

theorem batchAux_cons (world : Nat → WorldInput) (q : String × String)
    (t : List (String × String)) (i : Nat) :
    batchAux world (q :: t) i [] =
      (get_result (world i) q.1 q.2).1 :: batchAux world t (i + 1) [] := by
  rw [batchAux, batchAux_acc world t (i + 1)]
  simp

theorem batchAux_length (world : Nat → WorldInput) :
    ∀ (qs : List (String × String)) (i : Nat), (batchAux world qs i []).length = qs.length := by
  intro qs
  induction qs with
  | nil => intro i; rfl
  | cons q t ih =>
    intro i
    rw [batchAux_cons]
    simp [ih (i + 1)]

theorem batchAux_get (world : Nat → WorldInput) :
    ∀ (qs : List (String × String)) (i j : Nat), (batchAux world qs i []).get? j =
      (qs.get? j).map (fun q => (get_result (world (i + j)) q.1 q.2).1) := by
  intro qs
  induction qs with
  | nil => intro i j; simp [batchAux]
  | cons q t ih =>
    intro i j
    rw [batchAux_cons]
    cases j with
    | zero => simp
    | succ j =>
      rw [List.get?_cons_succ, List.get?_cons_succ, ih (i + 1) j]
      have he : i + (j + 1) = i + 1 + j := by omega
      rw [he]

/-! ### Claim theorems -/

/-- C1 (counterexample): with `max_retries = 3` and a permanently missing
registration field, the controller terminates after exactly 1 attempt with the
field-specific error, not after 3 attempts with "Maximum retries exceeded". -/
theorem c1_counterexample :
    scrape_result (fun _ => AttemptInput.regFieldMissing) "600123456" "01/01/2000" 3 =
      ([("Error", "Could not find registration number input field")], false, 1) ∧
    ¬ ((scrape_result (fun _ => AttemptInput.regFieldMissing) "600123456" "01/01/2000" 3).2.2 = 3 ∧
       dlookup (scrape_result (fun _ => AttemptInput.regFieldMissing) "600123456" "01/01/2000" 3).1
         "Error" = some "Maximum retries exceeded") := by
  constructor
  · rfl
  · intro h
    cases h.1

/-- C1 (amended): a failure to locate the registration-number field is
terminal on the very first attempt: exactly 1 attempt occurs, and the terminal
Error value is the field-specific message "Could not find registration number
input field" (the "Maximum retries exceeded" message arises only from the
form-still-visible retry path, as the accompanying conjunct shows). -/
theorem c1_field_not_found_terminal :
    (∀ (trace : Nat → AttemptInput) (regno dob : String) (maxRetries : Nat),
      1 ≤ maxRetries → trace 0 = AttemptInput.regFieldMissing →
      scrape_result trace regno dob maxRetries =
        ([("Error", "Could not find registration number input field")], false, 1)) ∧
    scrape_result (fun _ => AttemptInput.page formStillVisiblePage) "600123456" "01/01/2000" 3 =
      ([("Error", "Maximum retries exceeded"), ("Register Number", "600123456"),
        ("Date of Birth", "01/01/2000")], false, 3) := by
  constructor
  · intro trace regno dob maxRetries hmr h0
    obtain ⟨k, rfl⟩ : ∃ k, maxRetries = k + 1 := ⟨maxRetries - 1, by omega⟩
    unfold scrape_result
    rw [scrapeGo, h0]
    rfl
  · decide

/-- Witness for the amended C1 theorem at a concrete trace. -/
theorem c1_field_not_found_terminal_witness :
    scrape_result (fun _ => AttemptInput.regFieldMissing) "600999" "02/02/2002" 3 =
      ([("Error", "Could not find registration number input field")], false, 1) :=
  c1_field_not_found_terminal.1 (fun _ => AttemptInput.regFieldMissing) "600999" "02/02/2002" 3
    (by omega) rfl

/-- C2: every terminal result of a single-student scrape has exactly one of
the two shapes: either it contains the `Error` key (and no subject-position
key), or it contains at least one subject-position key (and no `Error` key). -/
theorem c2_result_shape_exclusive (trace : Nat → AttemptInput) (regno dob : String)
    (maxRetries : Nat) :
    (dmem (scrape_result trace regno dob maxRetries).1 "Error" = true ∧
      hasSubjKey (scrape_result trace regno dob maxRetries).1 = false) ∨
    (dmem (scrape_result trace regno dob maxRetries).1 "Error" = false ∧
      hasSubjKey (scrape_result trace regno dob maxRetries).1 = true) := by
  rcases scrape_result_good trace regno dob maxRetries with ⟨_, he, hk⟩ | ⟨_, he, hk, _⟩
  · exact Or.inr ⟨he, hk⟩
  · exact Or.inl ⟨he, hk⟩

/-- C5: a known-site-error classification on the first attempt is terminal:
the controller returns the website error immediately and executes exactly one
attempt, so no second submission happens for that student. -/
theorem c5_known_error_short_circuits (trace : Nat → AttemptInput) (regno dob : String)
    (maxRetries : Nat) (p : Page) (m : String) (hmr : 1 ≤ maxRetries)
    (h0 : trace 0 = AttemptInput.page p) (hk : knownErrorOf p.source = some m) :
    scrape_result trace regno dob maxRetries =
      ([("Error", "Website returned error: " ++ m),
        ("Register Number", regno), ("Date of Birth", dob)], false, 1) := by
  obtain ⟨k, rfl⟩ : ∃ k, maxRetries = k + 1 := ⟨maxRetries - 1, by omega⟩
  unfold scrape_result
  rw [scrapeGo, h0]
  have hra : runAttempt (AttemptInput.page p) regno dob = StepOut.done
      [("Error", "Website returned error: " ++ m),
       ("Register Number", regno), ("Date of Birth", dob)] false := by
    simp only [runAttempt, hk]
  rw [hra]

/-- Witness for C5 at a concrete page carrying "Invalid Register Number". -/
theorem c5_known_error_short_circuits_witness :
    scrape_result (fun _ => AttemptInput.page invalidRegPage) "600123" "01/01/2000" 3 =
      ([("Error", "Website returned error: " ++ "Invalid Register Number"),
        ("Register Number", "600123"), ("Date of Birth", "01/01/2000")], false, 1) :=
  c5_known_error_short_circuits (fun _ => AttemptInput.page invalidRegPage) "600123"
    "01/01/2000" 3 invalidRegPage "Invalid Register Number" (by omega) rfl (by decide)

/-- C6 (counterexample): a field-location failure is a terminal failure whose
result dict does not preserve the original Register Number, so its FailureTable
row lacks the query values. -/
theorem c6_counterexample :
    (get_result (WorldInput.ok (fun _ => AttemptInput.regFieldMissing))
        "600123456" "01/01/2000").2 = false ∧
    dmem (get_result (WorldInput.ok (fun _ => AttemptInput.regFieldMissing))
        "600123456" "01/01/2000").1 "Error" = true ∧
    dmem (get_result (WorldInput.ok (fun _ => AttemptInput.regFieldMissing))
        "600123456" "01/01/2000").1 "Register Number" = false := by
  decide

/-- C6 (amended): every terminal failure carries the `Error` key and either
preserves both original query values (Register Number and Date of Birth) or
consists of the `Error` key alone (field/submit-location and driver-init
failures); the FailureTable keeps failed results as-is, one row per failure. -/
theorem c6_failure_rows (w : WorldInput) (regno dob : String)
    (hf : (get_result w regno dob).2 = false) :
    (dmem (get_result w regno dob).1 "Error" = true ∧
      ((dlookup (get_result w regno dob).1 "Register Number" = some regno ∧
        dlookup (get_result w regno dob).1 "Date of Birth" = some dob) ∨
       dkeys (get_result w regno dob).1 = ["Error"])) ∧
    (∀ results : List Dict, (process_results_for_export results).2 =
      results.filter (fun r => dmem r "Error")) := by
  refine ⟨?_, fun results => rfl⟩
  cases w with
  | driverFail => exact ⟨rfl, Or.inr rfl⟩
  | outerExn m => exact ⟨rfl, Or.inl ⟨rfl, rfl⟩⟩
  | ok trace =>
    rcases scrape_result_good trace regno dob 3 with ⟨hs, _, _⟩ | ⟨_, he, _, hrest⟩
    · exfalso
      have h2 : (scrape_result trace regno dob 3).2.1 = false := hf
      rw [hs] at h2
      cases h2
    · exact ⟨he, hrest⟩

/-- Witness for the amended C6 theorem. -/
theorem c6_failure_rows_witness :
    dmem (get_result (WorldInput.outerExn "connection reset") "11" "22").1 "Error" = true ∧
    ((dlookup (get_result (WorldInput.outerExn "connection reset") "11" "22").1
        "Register Number" = some "11" ∧
      dlookup (get_result (WorldInput.outerExn "connection reset") "11" "22").1
        "Date of Birth" = some "22") ∨
     dkeys (get_result (WorldInput.outerExn "connection reset") "11" "22").1 = ["Error"]) :=
  (c6_failure_rows (WorldInput.outerExn "connection reset") "11" "22" rfl).1

/-- C9: for both the core scrape function and its per-student wrapper, the
returned success flag is true exactly when the returned dict has no `Error`
key. -/
theorem c9_flag_iff_no_error :
    (∀ (trace : Nat → AttemptInput) (regno dob : String) (maxRetries : Nat),
      (scrape_result trace regno dob maxRetries).2.1 = true ↔
        dmem (scrape_result trace regno dob maxRetries).1 "Error" = false) ∧
    (∀ (w : WorldInput) (regno dob : String),
      (get_result w regno dob).2 = true ↔
        dmem (get_result w regno dob).1 "Error" = false) := by
  constructor
  · intro trace regno dob maxRetries
    rcases scrape_result_good trace regno dob maxRetries with ⟨hs, he, _⟩ | ⟨hs, he, _, _⟩
    · rw [hs, he]
      simp
    · rw [hs, he]
      simp
  · intro w regno dob
    cases w with
    | driverFail =>
      constructor
      · intro h
        cases h
      · intro h
        cases h
    | outerExn m =>
      constructor
      · intro h
        cases h
      · intro h
        cases h
    | ok trace =>
      show (scrape_result trace regno dob 3).2.1 = true ↔
        dmem (scrape_result trace regno dob 3).1 "Error" = false
      rcases scrape_result_good trace regno dob 3 with ⟨hs, he, _⟩ | ⟨hs, he, _, _⟩
      · rw [hs, he]
        simp
      · rw [hs, he]
        simp

/-- C4: the batch loop yields exactly one result per query, and the result at
index i is the result of scraping the query at index i. -/
theorem c4_batch_order_preserved (world : Nat → WorldInput)
    (queries : List (String × String)) :
    (batchResults world queries).length = queries.length ∧
    ∀ (i : Nat) (q : String × String), queries.get? i = some q →
      (batchResults world queries).get? i = some (get_result (world i) q.1 q.2).1 := by
  constructor
  · exact batchAux_length world queries 0
  · intro i q hq
    unfold batchResults
    rw [batchAux_get world queries 0 i, hq]
    simp

/-- Witness for C4 on a concrete two-query batch. -/
theorem c4_batch_order_preserved_witness :
    (batchResults (fun _ => WorldInput.ok (fun _ => AttemptInput.page invalidRegPage))
        [("111", "01/01/2000"), ("222", "02/02/2000")]).get? 1 =
      some (get_result (WorldInput.ok (fun _ => AttemptInput.page invalidRegPage))
        "222" "02/02/2000").1 :=
  (c4_batch_order_preserved (fun _ => WorldInput.ok (fun _ => AttemptInput.page invalidRegPage))
    [("111", "01/01/2000"), ("222", "02/02/2000")]).2 1 ("222", "02/02/2000") rfl

/-! ### Name-extraction lemmas -/

theorem findSome?_some {α β : Type} (f : α → Option β) :
    ∀ (l : List α) (b : β), l.findSome? f = some b → ∃ a, a ∈ l ∧ f a = some b := by
  intro l
  induction l with
  | nil => intro b h; simp [List.findSome?] at h
  | cons x xs ih =>
    intro b h
    rw [List.findSome?] at h
    cases hfx : f x with
    | some y =>
      rw [hfx] at h
      exact ⟨x, by simp, hfx.trans h⟩
    | none =>
      rw [hfx] at h
      obtain ⟨a, ha, hfa⟩ := ih b h
      exact ⟨a, by simp [ha], hfa⟩

theorem path2Row_some {row : List String} {t : String} (h : path2Row row = some t) :
    (t == "") = false ∧ 3 < t.length ∧ substrB "university" (lowerStr t) = false ∧
      substrB "madras" (lowerStr t) = false := by
  rcases row with _ | ⟨c0, _ | ⟨c1, rest⟩⟩
  · simp [path2Row] at h
  · simp [path2Row] at h
  · simp only [path2Row] at h
    by_cases hkw : (substrB "name" (strip (lowerStr c0)) ||
        substrB "student" (strip (lowerStr c0)) ||
        substrB "candidate" (strip (lowerStr c0))) = true
    · rw [if_pos hkw] at h
      by_cases hacc : (!(strip c1 == "") && !(substrB "university" (lowerStr (strip c1))) &&
          !(substrB "madras" (lowerStr (strip c1))) && decide (3 < (strip c1).length)) = true
      · rw [if_pos hacc] at h
        injection h with h2
        subst h2
        simp only [Bool.and_eq_true, Bool.not_eq_true', decide_eq_true_eq] at hacc
        exact ⟨hacc.1.1.1, hacc.2, hacc.1.1.2, hacc.1.2⟩
      · rw [if_neg hacc] at h
        cases h
    · rw [if_neg hkw] at h
      cases h

/-- C7 (counterexample): in the table-scanning name-extraction path, a
candidate containing the institution token "college" is accepted and becomes
the Student Name, although the first path's filter would reject it. -/
theorem c7_counterexample :
    nameField collegePage = "Good College" ∧
    substrB "college" (lowerStr "Good College") = true ∧
    accept1 "Good College" = false := by
  decide

/-- C7 (amended): the first name-extraction path rejects candidates that are
empty, of length at most 3, or contain any of the four institution tokens; the
table-scanning path and the bold-text path reject only "university" and
"madras" (not "institution" or "college"); whenever no path accepts a
candidate, the Student Name is the sentinel "Name extraction failed". -/
theorem c7_name_filters :
    (∀ (p : Page) (t : String), path1find p = some t →
      (t == "") = false ∧ 3 < t.length ∧
      substrB "university" (lowerStr t) = false ∧ substrB "madras" (lowerStr t) = false ∧
      substrB "institution" (lowerStr t) = false ∧ substrB "college" (lowerStr t) = false) ∧
    (∀ (p : Page) (t : String), path2find p = some t →
      (t == "") = false ∧ 3 < t.length ∧
      substrB "university" (lowerStr t) = false ∧ substrB "madras" (lowerStr t) = false) ∧
    (∀ (p : Page) (t : String), path3find p = some t →
      3 < t.length ∧
      substrB "university" (lowerStr t) = false ∧ substrB "madras" (lowerStr t) = false) ∧
    (∀ p : Page, path1find p = none → path2find p = none → path3find p = none →
      nameField p = "Name extraction failed") := by
  refine ⟨?_, ?_, ?_, ?_⟩
  · intro p t h
    have ha := List.find?_some h
    simp only [accept1, Bool.and_eq_true, Bool.not_eq_true', decide_eq_true_eq] at ha
    exact ⟨ha.1.1.1.1.1, ha.1.1.1.1.2, ha.1.1.1.2, ha.1.1.2, ha.1.2, ha.2⟩
  · intro p t h
    obtain ⟨row, _, hrow⟩ := findSome?_some path2Row (p.tables.flatten) t (by exact h)
    exact path2Row_some hrow
  · intro p t h
    have ha := List.find?_some h
    simp only [accept3, Bool.and_eq_true, Bool.not_eq_true', decide_eq_true_eq] at ha
    exact ⟨ha.1.1.1.1, ha.1.1.2, ha.1.2⟩
  · intro p h1 h2 h3
    unfold nameField
    rw [h1, h2, h3]

/-! ### Duplicate-row overwrite lemmas (C10) -/

theorem mkKey_inj_pos {c : String} {a b : Nat}
    (h : c ++ "_" ++ natRepr a = c ++ "_" ++ natRepr b) : a = b := by
  have hd := congrArg String.data h
  rw [mkKey_data, mkKey_data] at hd
  have h2 := List.append_cancel_left hd
  injection h2 with _ h3
  exact natDigits_inj h3

theorem mem_markKeys (code : String) :
    ∀ (ms : List String) (j : Nat) (k : String), k ∈ markKeys code j ms →
    ∃ t, t < ms.length ∧ k = code ++ "_" ++ natRepr (j + t) := by
  intro ms
  induction ms with
  | nil => intro j k h; cases h
  | cons m t ih =>
    intro j k h
    rw [markKeys] at h
    rcases List.mem_cons.mp h with h1 | h2
    · exact ⟨0, by simp, by rw [h1, Nat.add_zero]⟩
    · obtain ⟨s, hs, hk⟩ := ih (j + 1) k h2
      refine ⟨s + 1, by simp; omega, ?_⟩
      rw [hk]
      have : j + 1 + s = j + (s + 1) := by omega
      rw [this]

theorem dlookup_writeMarks_ne (code k : String) :
    ∀ (ms : List String) (j : Nat) (d : Dict),
    (∀ key ∈ markKeys code j ms, key ≠ k) →
    dlookup (writeMarks d code j ms) k = dlookup d k := by
  intro ms
  induction ms with
  | nil => intro j d _; rfl
  | cons m t ih =>
    intro j d h
    rw [writeMarks]
    rw [ih (j + 1) _ (fun key hk => h key (by rw [markKeys]; exact List.mem_cons_of_mem _ hk))]
    exact dlookup_dinsert_ne d _ m k
      (Ne.symm (h _ (by rw [markKeys]; exact List.mem_cons_self _ _)))

theorem writeMarks_lookup_self (code : String) :
    ∀ (ms : List String) (j i : Nat) (d : Dict) (v : String), ms.get? i = some v →
    dlookup (writeMarks d code j ms) (code ++ "_" ++ natRepr (j + i)) = some v := by
  intro ms
  induction ms with
  | nil => intro j i d v h; cases h
  | cons m t ih =>
    intro j i d v h
    cases i with
    | zero =>
      injection h with h1
      subst h1
      rw [Nat.add_zero, writeMarks]
      rw [dlookup_writeMarks_ne code _ t (j + 1) _ ?_]
      · exact dlookup_dinsert_self d _ m
      · intro key hk he
        obtain ⟨s, _, hks⟩ := mem_markKeys code t (j + 1) key hk
        rw [he] at hks
        have := mkKey_inj_pos hks.symm
        omega
    | succ i =>
      rw [List.get?_cons_succ] at h
      rw [writeMarks]
      have he : j + (i + 1) = j + 1 + i := by omega
      rw [he]
      exact ih (j + 1) i _ v h

theorem dlookup_processRow_self (cells : List String) (d : Dict) (i : Nat) (v : String)
    (h3 : 3 ≤ cells.length) (hne : strip (cells.headD "") ≠ "")
    (hlen : (strip (cells.headD "")).length ≤ 15) (hv : (rowMarks cells).get? i = some v) :
    dlookup (processRow d cells) (strip (cells.headD "") ++ "_" ++ natRepr i) = some v := by
  unfold processRow
  rw [if_pos h3, if_pos ⟨hne, hlen⟩]
  have := writeMarks_lookup_self (strip (cells.headD "")) (rowMarks cells) 0 i d v hv
  rw [Nat.zero_add] at this
  exact this

theorem rowWrites_false_preserve (cells : List String) (k : String) (d : Dict)
    (h : rowWrites cells k = false) : dlookup (processRow d cells) k = dlookup d k := by
  unfold processRow
  unfold rowWrites at h
  by_cases h3 : 3 ≤ cells.length
  · rw [if_pos h3] at h ⊢
    by_cases hc : strip (cells.headD "") ≠ "" ∧ (strip (cells.headD "")).length ≤ 15
    · rw [if_pos hc] at h ⊢
      apply dlookup_writeMarks_ne
      intro key hkm he
      rw [← Bool.not_eq_true] at h
      apply h
      rw [List.any_eq_true]
      exact ⟨key, hkm, by simp [he]⟩
    · rw [if_neg hc]
  · rw [if_neg h3]

theorem foldl_processRow_preserve (k : String) :
    ∀ (rows : List (List String)) (d : Dict), (∀ r ∈ rows, rowWrites r k = false) →
    dlookup (rows.foldl processRow d) k = dlookup d k := by
  intro rows
  induction rows with
  | nil => intro d _; rfl
  | cons r t ih =>
    intro d h
    show dlookup (t.foldl processRow (processRow d r)) k = dlookup d k
    rw [ih (processRow d r) (fun x hx => h x (List.mem_cons_of_mem r hx))]
    exact rowWrites_false_preserve r k d (h r (List.mem_cons_self r t))

/-- C10: subject rows sharing a code overwrite positionally; the extracted
dict binds each (code, position) key at most once; the value bound to a key
written by a qualifying row is that of the last row writing it (later rows
overwrite earlier ones at each shared position), as also shown by the
concrete duplicate-code collapse. -/
theorem c10_duplicate_rows_overwrite :
    (∀ tables : List (List (List String)), (dkeys (subjectResults tables)).Nodup) ∧
    (∀ (rows1 : List (List String)) (cells : List String) (rows2 : List (List String))
       (d0 : Dict) (i : Nat) (v : String),
      3 ≤ cells.length → strip (cells.headD "") ≠ "" →
      (strip (cells.headD "")).length ≤ 15 →
      (rowMarks cells).get? i = some v →
      (∀ r2 ∈ rows2, rowWrites r2 (strip (cells.headD "") ++ "_" ++ natRepr i) = false) →
      dlookup ((rows1 ++ cells :: rows2).foldl processRow d0)
        (strip (cells.headD "") ++ "_" ++ natRepr i) = some v) ∧
    subjectResults [[["CS1", "x", "10", "20"], ["CS1", "y", "30"]]] =
      [("CS1_0", "30"), ("CS1_1", "20")] := by
  refine ⟨?_, ?_, by decide⟩
  · intro tables
    exact nodup_dkeys_foldl_processRow (tables.flatten) [] List.nodup_nil
  · intro rows1 cells rows2 d0 i v h3 hne hlen hv hrest
    rw [List.foldl_append]
    show dlookup ((cells :: rows2).foldl processRow (rows1.foldl processRow d0)) _ = some v
    rw [show (cells :: rows2).foldl processRow (rows1.foldl processRow d0) =
        rows2.foldl processRow (processRow (rows1.foldl processRow d0) cells) from rfl]
    rw [foldl_processRow_preserve _ rows2 _ hrest]
    exact dlookup_processRow_self cells _ i v h3 hne hlen hv

/-- Witness for C10: the later duplicate row's value wins at the shared
position. -/
theorem c10_duplicate_rows_overwrite_witness :
    dlookup (([[ "CS1", "x", "10", "20" ]] ++ ["CS1", "y", "30"] :: []).foldl processRow [])
      (strip (["CS1", "y", "30"].headD "") ++ "_" ++ natRepr 0) = some "30" :=
  c10_duplicate_rows_overwrite.2.1 [["CS1", "x", "10", "20"]] ["CS1", "y", "30"] [] [] 0 "30"
    (by decide) (by decide) (by decide) (by decide) (fun r2 hr2 => by cases hr2)

/-! ### Code-point order lemmas (the order Python `sorted` uses on strings) -/

theorem charListLe_total : ∀ l1 l2 : List Char,
    charListLe l1 l2 = true ∨ charListLe l2 l1 = true := by
  intro l1
  induction l1 with
  | nil => intro l2; exact Or.inl rfl
  | cons a as ih =>
    intro l2
    cases l2 with
    | nil => exact Or.inr rfl
    | cons b bs =>
      by_cases hab : a.toNat < b.toNat
      · left
        rw [charListLe, if_pos hab]
      · by_cases hba : b.toNat < a.toNat
        · right
          rw [charListLe, if_pos hba]
        · have h1 : charListLe (a :: as) (b :: bs) = charListLe as bs := by
            rw [charListLe, if_neg hab, if_neg hba]
          have h2 : charListLe (b :: bs) (a :: as) = charListLe bs as := by
            rw [charListLe, if_neg hba, if_neg hab]
          rw [h1, h2]
          exact ih bs

theorem charListLe_trans : ∀ l1 l2 l3 : List Char, charListLe l1 l2 = true →
    charListLe l2 l3 = true → charListLe l1 l3 = true := by
  intro l1
  induction l1 with
  | nil => intro l2 l3 _ _; rfl
  | cons a as ih =>
    intro l2 l3 h1 h2
    cases l2 with
    | nil => simp [charListLe] at h1
    | cons b bs =>
      cases l3 with
      | nil => simp [charListLe] at h2
      | cons c cs =>
        rw [charListLe] at h1 h2 ⊢
        by_cases hab : a.toNat < b.toNat
        · by_cases hbc : b.toNat < c.toNat
          · rw [if_pos (show a.toNat < c.toNat by omega)]
          · rw [if_neg hbc] at h2
            by_cases hcb : c.toNat < b.toNat
            · rw [if_pos hcb] at h2
              cases h2
            · rw [if_pos (show a.toNat < c.toNat by omega)]
        · rw [if_neg hab] at h1
          by_cases hba : b.toNat < a.toNat
          · rw [if_pos hba] at h1
            cases h1
          · rw [if_neg hba] at h1
            by_cases hbc : b.toNat < c.toNat
            · rw [if_pos (show a.toNat < c.toNat by omega)]
            · rw [if_neg hbc] at h2
              by_cases hcb : c.toNat < b.toNat
              · rw [if_pos hcb] at h2
                cases h2
              · rw [if_neg hcb] at h2
                rw [if_neg (show ¬ a.toNat < c.toNat by omega),
                    if_neg (show ¬ c.toNat < a.toNat by omega)]
                exact ih bs cs h1 h2

theorem charListLe_antisymm : ∀ l1 l2 : List Char, charListLe l1 l2 = true →
    charListLe l2 l1 = true → l1 = l2 := by
  intro l1
  induction l1 with
  | nil =>
    intro l2 _ h2
    cases l2 with
    | nil => rfl
    | cons b bs => simp [charListLe] at h2
  | cons a as ih =>
    intro l2 h1 h2
    cases l2 with
    | nil => simp [charListLe] at h1
    | cons b bs =>
      rw [charListLe] at h1 h2
      by_cases hab : a.toNat < b.toNat
      · rw [if_neg (show ¬ b.toNat < a.toNat by omega), if_pos hab] at h2
        cases h2
      · by_cases hba : b.toNat < a.toNat
        · rw [if_neg hab, if_pos hba] at h1
          cases h1
        · rw [if_neg hab, if_neg hba] at h1
          rw [if_neg hba, if_neg hab] at h2
          have hc : a = b := char_toNat_inj (by omega)
          rw [hc, ih bs h1 h2]

instance : IsTotal String SLe :=
  ⟨fun a b => charListLe_total a.data b.data⟩

instance : IsTrans String SLe :=
  ⟨fun a b c h1 h2 => charListLe_trans a.data b.data c.data h1 h2⟩

instance : IsAntisymm String SLe :=
  ⟨fun a b h1 h2 => String.ext (charListLe_antisymm a.data b.data h1 h2)⟩

theorem sortStrings_perm_eq (l1 l2 : List String) (hp : l1.Perm l2) :
    sortStrings l1 = sortStrings l2 :=
  List.eq_of_perm_of_sorted
    ((List.perm_insertionSort SLe l1).trans (hp.trans (List.perm_insertionSort SLe l2).symm))
    (List.sorted_insertionSort SLe l1) (List.sorted_insertionSort SLe l2)

theorem sortNats_perm_eq (l1 l2 : List Nat) (hp : l1.Perm l2) :
    sortNats l1 = sortNats l2 :=
  List.eq_of_perm_of_sorted
    ((List.perm_insertionSort _ l1).trans (hp.trans (List.perm_insertionSort _ l2).symm))
    (List.sorted_insertionSort _ l1) (List.sorted_insertionSort _ l2)

/-! ### Registry well-formedness -/

theorem parseSubjectKey_code {k c : String} {p : Nat}
    (h : parseSubjectKey k = some (c, p)) :
    c ≠ "" ∧ c.data.all Char.isAlphanum = true := by
  unfold parseSubjectKey at h
  split at h
  · by_cases h1 : (((k.data.reverse).takeWhile Char.isDigit).isEmpty : Bool) = true
    · rw [if_pos h1] at h
      cases h
    · rw [if_neg h1] at h
      rename_i heq
      rename List Char => rest
      by_cases h2 : (rest.isEmpty : Bool) = true
      · rw [if_pos h2] at h
        cases h
      · rw [if_neg h2] at h
        by_cases h3 : rest.all Char.isAlphanum = true
        · rw [if_pos h3] at h
          injection h with h4
          have hc : c = String.mk rest.reverse := by
            have := congrArg Prod.fst h4
            exact this.symm
          constructor
          · rw [hc]
            intro he
            have hd : rest.reverse = [] := by
              have := congrArg String.data he
              exact this
            have : rest = [] := by simpa using congrArg List.reverse hd
            rw [this] at h2
            exact h2 rfl
          · rw [hc]
            show (rest.reverse).all Char.isAlphanum = true
            rw [List.all_reverse]
            exact h3
        · rw [if_neg h3] at h
          cases h
  · cases h

theorem regInsert_keys (reg : List (String × List Nat)) (code : String) (pos : Nat) :
    (regInsert reg code pos).map (fun e => e.1) =
      if reg.any (fun e => e.1 == code) then reg.map (fun e => e.1)
      else reg.map (fun e => e.1) ++ [code] := by
  unfold regInsert
  by_cases hx : reg.any (fun e => e.1 == code) = true
  · rw [if_pos hx, if_pos hx, List.map_map]
    apply List.map_congr_left
    intro e _
    simp only [Function.comp]
    by_cases he : e.1 = code
    · rw [if_pos (by simp [he])]
    · rw [if_neg (by simp [he])]
  · rw [if_neg hx, if_neg hx]
    simp

theorem regInsert_wf (reg : List (String × List Nat)) (code : String) (pos : Nat)
    (h : RegWF reg) (hc1 : code ≠ "") (hc2 : code.data.all Char.isAlphanum = true) :
    RegWF (regInsert reg code pos) := by
  constructor
  · rw [regInsert_keys]
    by_cases hx : reg.any (fun e => e.1 == code) = true
    · rw [if_pos hx]
      exact h.1
    · rw [if_neg hx]
      rw [List.nodup_append]
      refine ⟨h.1, List.nodup_singleton code, ?_⟩
      intro x hxm hxs
      simp at hxs
      subst hxs
      obtain ⟨e, he, hfst⟩ := List.mem_map.mp hxm
      apply hx
      rw [List.any_eq_true]
      exact ⟨e, he, by simp [hfst]⟩
  · intro e' he'
    unfold regInsert at he'
    by_cases hx : reg.any (fun e => e.1 == code) = true
    · rw [if_pos hx] at he'
      obtain ⟨e, he, hfe⟩ := List.mem_map.mp he'
      by_cases hec : e.1 = code
      · rw [if_pos (by simp [hec])] at hfe
        obtain ⟨hw1, hw2, hw3⟩ := h.2 e he
        subst hfe
        refine ⟨hw1, hw2, ?_⟩
        by_cases hcont : e.2.any (fun q => q == pos) = true
        · rw [if_pos hcont]
          exact hw3
        · rw [if_neg hcont]
          rw [List.nodup_append]
          refine ⟨hw3, List.nodup_singleton pos, ?_⟩
          intro x hxm hxs
          simp at hxs
          subst hxs
          apply hcont
          rw [List.any_eq_true]
          exact ⟨x, hxm, by simp⟩
      · rw [if_neg (by simp [hec])] at hfe
        subst hfe
        exact h.2 e he
    · rw [if_neg hx] at he'
      rcases List.mem_append.mp he' with h1 | h2
      · exact h.2 e' h1
      · simp at h2
        subst h2
        exact ⟨hc1, hc2, List.nodup_singleton pos⟩

theorem foldKV_registry_wf : ∀ (r : Dict) (reg : List (String × List Nat)), RegWF reg →
    RegWF (r.foldl
      (fun reg kv =>
        match parseSubjectKey kv.1 with
        | some cp => regInsert reg cp.1 cp.2
        | none => reg) reg) := by
  intro r
  induction r with
  | nil => intro reg h; exact h
  | cons kv t ih =>
    intro reg h
    rw [List.foldl_cons]
    apply ih
    cases hp : parseSubjectKey kv.1 with
    | none => simpa [hp] using h
    | some cp =>
      have hcode := parseSubjectKey_code (by rw [hp] : parseSubjectKey kv.1 = some (cp.1, cp.2))
      simpa [hp] using regInsert_wf reg cp.1 cp.2 h hcode.1 hcode.2

theorem buildRegistry_wf (successes : List Dict) : RegWF (buildRegistry successes) := by
  unfold buildRegistry
  have : ∀ (l : List Dict) (reg : List (String × List Nat)), RegWF reg →
      RegWF (l.foldl
        (fun reg r =>
          r.foldl
            (fun reg kv =>
              match parseSubjectKey kv.1 with
              | some cp => regInsert reg cp.1 cp.2
              | none => reg) reg) reg) := by
    intro l
    induction l with
    | nil => intro reg h; exact h
    | cons r t ih =>
      intro reg h
      rw [List.foldl_cons]
      exact ih _ (foldKV_registry_wf r reg h)
  exact this successes [] ⟨List.nodup_nil, by intro e he; cases he⟩

theorem posOf_eq {reg : List (String × List Nat)}
    (hnd : (reg.map (fun e => e.1)).Nodup) {e : String × List Nat} (he : e ∈ reg) :
    posOf reg e.1 = e.2 := by
  induction reg with
  | nil => cases he
  | cons e0 t ih =>
    rcases List.mem_cons.mp he with h1 | h2
    · subst h1
      unfold posOf
      rw [List.find?]
      rw [show (e.1 == e.1) = true by simp]
    · have hne : e0.1 ≠ e.1 := by
        intro hc
        rw [List.map_cons, List.nodup_cons] at hnd
        exact hnd.1 (hc ▸ List.mem_map.mpr ⟨e, h2, rfl⟩)
      unfold posOf
      rw [List.find?]
      rw [show (e0.1 == e.1) = false by simp [hne]]
      have := ih (by rw [List.map_cons, List.nodup_cons] at hnd; exact hnd.2) h2
      exact this

/-! ### Column-name distinctness -/

theorem underscore_mem_mkKey (c : String) (p : Nat) :
    '_' ∈ (c ++ "_" ++ natRepr p).data := by
  rw [mkKey_data]
  simp

theorem alnum_no_underscore {c : String} (h : c.data.all Char.isAlphanum = true) :
    '_' ∉ c.data := by
  intro hm
  have := List.all_eq_true.mp h '_' hm
  cases this

theorem code_ne_mkKey {c c' : String} (hc : c.data.all Char.isAlphanum = true) (p : Nat) :
    c ≠ c' ++ "_" ++ natRepr p := by
  intro he
  exact alnum_no_underscore hc (he ▸ underscore_mem_mkKey c' p)

theorem append_split (ch : Char) : ∀ (xs xs' ys ys' : List Char), ch ∉ xs → ch ∉ xs' →
    xs ++ ch :: ys = xs' ++ ch :: ys' → xs = xs' ∧ ys = ys' := by
  intro xs
  induction xs with
  | nil =>
    intro xs' ys ys' _ hx' h
    cases xs' with
    | nil =>
      injection h with _ h2
      exact ⟨rfl, h2⟩
    | cons a t =>
      rw [List.nil_append, List.cons_append] at h
      injection h with h1 _
      exact absurd (h1 ▸ List.mem_cons_self a t) hx'
  | cons a t ih =>
    intro xs' ys ys' hx hx' h
    cases xs' with
    | nil =>
      rw [List.nil_append, List.cons_append] at h
      injection h with h1 _
      exact absurd (h1.symm ▸ List.mem_cons_self a t) hx
    | cons a' t' =>
      rw [List.cons_append, List.cons_append] at h
      injection h with h1 h2
      obtain ⟨h3, h4⟩ := ih t' ys ys'
        (fun hm => hx (List.mem_cons_of_mem a hm))
        (fun hm => hx' (List.mem_cons_of_mem a' hm)) h2
      exact ⟨by rw [h1, h3], h4⟩

theorem mkKey_inj {c c' : String} (hc : c.data.all Char.isAlphanum = true)
    (hc' : c'.data.all Char.isAlphanum = true) {p q : Nat}
    (h : c ++ "_" ++ natRepr p = c' ++ "_" ++ natRepr q) : c = c' ∧ p = q := by
  have hd := congrArg String.data h
  rw [mkKey_data, mkKey_data] at hd
  obtain ⟨h1, h2⟩ := append_split '_' c.data c'.data _ _
    (alnum_no_underscore hc) (alnum_no_underscore hc') hd
  exact ⟨String.ext h1, natDigits_inj h2⟩

/-! ### Column-spec structure lemmas -/

theorem mem_sortedCodes {reg : List (String × List Nat)} {code : String}
    (h : code ∈ sortedCodes reg) : code ∈ reg.map (fun e => e.1) :=
  (List.perm_insertionSort SLe _).mem_iff.mp h

theorem mem_columnSpecs {reg : List (String × List Nat)} (hwf : RegWF reg)
    {cs : String × String} (h : cs ∈ columnSpecs reg) :
    ∃ e ∈ reg, (e.1 ≠ "" ∧ e.1.data.all Char.isAlphanum = true) ∧
      ∃ p : Nat, (cs.1 = e.1 ∨ cs.1 = e.1 ++ "_" ++ natRepr p) ∧
        cs.2 = e.1 ++ "_" ++ natRepr p := by
  unfold columnSpecs at h
  obtain ⟨code, hcode, hmem⟩ := List.mem_flatMap.mp h
  obtain ⟨e, he, hfst⟩ := List.mem_map.mp (mem_sortedCodes hcode)
  obtain ⟨p, _, hcs⟩ := List.mem_map.mp hmem
  refine ⟨e, he, ⟨(hwf.2 e he).1, (hwf.2 e he).2.1⟩, p, ?_, ?_⟩
  · rw [← hcs]
    by_cases hlen : 1 < (sortNats (posOf reg code)).length
    · rw [if_pos hlen]
      right
      rw [hfst]
    · rw [if_neg hlen]
      left
      rw [hfst]
  · rw [← hcs, hfst]

theorem flatMap_congr_custom {α β : Type} (l : List α) (f g : α → List β)
    (h : ∀ a ∈ l, f a = g a) : l.flatMap f = l.flatMap g := by
  induction l with
  | nil => rfl
  | cons a t ih =>
    rw [List.flatMap_cons, List.flatMap_cons, h a (List.mem_cons_self a t),
        ih (fun x hx => h x (List.mem_cons_of_mem a hx))]

theorem nodup_flatMap_disjoint {α β : Type} (l : List α) (f : α → List β) (hl : l.Nodup)
    (hf : ∀ a ∈ l, (f a).Nodup)
    (hdisj : ∀ a ∈ l, ∀ b ∈ l, a ≠ b → ∀ x ∈ f a, x ∉ f b) : (l.flatMap f).Nodup := by
  induction l with
  | nil => exact List.nodup_nil
  | cons a t ih =>
    rw [List.flatMap_cons]
    rw [List.nodup_cons] at hl
    apply List.Nodup.append (hf a (List.mem_cons_self a t))
      (ih hl.2 (fun x hx => hf x (List.mem_cons_of_mem a hx))
        (fun x hx y hy hxy => hdisj x (List.mem_cons_of_mem a hx) y
          (List.mem_cons_of_mem a hy) hxy))
    intro x hxa hxt
    obtain ⟨b, hb, hxb⟩ := List.mem_flatMap.mp hxt
    have hab : a ≠ b := by
      intro he
      exact hl.1 (he ▸ hb)
    exact hdisj a (List.mem_cons_self a t) b (List.mem_cons_of_mem a hb) hab x hxa hxb

theorem columnSpecs_fst (reg : List (String × List Nat)) :
    (columnSpecs reg).map (fun cs => cs.1) = (sortedCodes reg).flatMap (codeColumns reg) := by
  unfold columnSpecs codeColumns
  rw [List.map_flatMap]
  apply flatMap_congr_custom
  intro code _
  rw [List.map_map]
  rfl

theorem codeColumns_mem {reg : List (String × List Nat)} {code x : String}
    (h : x ∈ codeColumns reg code) :
    x = code ∨ ∃ p : Nat, x = code ++ "_" ++ natRepr p := by
  unfold codeColumns at h
  obtain ⟨p, _, hx⟩ := List.mem_map.mp h
  by_cases hlen : 1 < (sortNats (posOf reg code)).length
  · rw [if_pos hlen] at hx
    exact Or.inr ⟨p, hx.symm⟩
  · rw [if_neg hlen] at hx
    exact Or.inl hx.symm

theorem codeColumns_nodup {reg : List (String × List Nat)} (hwf : RegWF reg)
    {code : String} (hmem : code ∈ reg.map (fun e => e.1)) :
    (codeColumns reg code).Nodup := by
  obtain ⟨e, he, hfst⟩ := List.mem_map.mp hmem
  have hps : (sortNats (posOf reg code)).Nodup := by
    rw [← hfst, posOf_eq hwf.1 he]
    exact (List.perm_insertionSort _ _).nodup_iff.mpr (hwf.2 e he).2.2
  unfold codeColumns
  by_cases hlen : 1 < (sortNats (posOf reg code)).length
  · apply List.Nodup.map_on ?_ hps
    intro p hp q hq hpq
    rw [if_pos hlen, if_pos hlen] at hpq
    exact mkKey_inj_pos hpq
  · rcases hsp : sortNats (posOf reg code) with _ | ⟨p, _ | ⟨q, rest⟩⟩
    · simp
    · simp
    · rw [hsp] at hlen
      exfalso
      apply hlen
      simp

theorem codeColumns_disjoint {reg : List (String × List Nat)} (hwf : RegWF reg)
    {a b : String} (ha : a ∈ reg.map (fun e => e.1)) (hb : b ∈ reg.map (fun e => e.1))
    (hab : a ≠ b) : ∀ x ∈ codeColumns reg a, x ∉ codeColumns reg b := by
  obtain ⟨ea, hea, hfa⟩ := List.mem_map.mp ha
  obtain ⟨eb, heb, hfb⟩ := List.mem_map.mp hb
  have haln : a.data.all Char.isAlphanum = true := by
    rw [← hfa]
    exact (hwf.2 ea hea).2.1
  have hbln : b.data.all Char.isAlphanum = true := by
    rw [← hfb]
    exact (hwf.2 eb heb).2.1
  intro x hxa hxb
  rcases codeColumns_mem hxa with h1 | ⟨p, h1⟩ <;> rcases codeColumns_mem hxb with h2 | ⟨q, h2⟩
  · exact hab (h1 ▸ h2 ▸ rfl)
  · exact code_ne_mkKey haln q (h1 ▸ h2)
  · exact code_ne_mkKey hbln p (h2 ▸ h1)
  · exact hab (mkKey_inj haln hbln (h1 ▸ h2)).1

theorem columnSpecs_fst_nodup {reg : List (String × List Nat)} (hwf : RegWF reg) :
    ((columnSpecs reg).map (fun cs => cs.1)).Nodup := by
  rw [columnSpecs_fst]
  apply nodup_flatMap_disjoint
  · exact (List.perm_insertionSort SLe _).nodup_iff.mpr hwf.1
  · intro a hamem
    exact codeColumns_nodup hwf (mem_sortedCodes hamem)
  · intro a hamem b hbmem hab
    exact codeColumns_disjoint hwf (mem_sortedCodes hamem) (mem_sortedCodes hbmem) hab

theorem regno_not_col {reg : List (String × List Nat)} (hwf : RegWF reg) :
    "REG NO" ∉ (columnSpecs reg).map (fun cs => cs.1) := by
  intro hm
  obtain ⟨cs, hcs, hfst⟩ := List.mem_map.mp hm
  obtain ⟨e, he, ⟨_, haln⟩, p, hshape, _⟩ := mem_columnSpecs hwf hcs
  rcases hshape with h1 | h1
  · have : e.1 = "REG NO" := by rw [← h1, hfst]
    rw [this] at haln
    cases haln
  · have hu : '_' ∈ ("REG NO" : String).data := by
      rw [← hfst, h1]
      exact underscore_mem_mkKey e.1 p
    exact absurd hu (by decide)

/-! ### Row-construction lemmas -/

theorem dkeys_foldl_dinsert (g : String × String → String) :
    ∀ (specs : List (String × String)) (base : Dict),
    (∀ cs ∈ specs, dmem base cs.1 = false) → ((specs.map (fun cs => cs.1)).Nodup) →
    dkeys (specs.foldl (fun row cs => dinsert row cs.1 (g cs)) base) =
      dkeys base ++ specs.map (fun cs => cs.1) := by
  intro specs
  induction specs with
  | nil => intro base _ _; simp
  | cons cs0 t ih =>
    intro base hdis hnd
    rw [List.foldl_cons]
    rw [List.map_cons, List.nodup_cons] at hnd
    have hnew := dkeys_dinsert_new base cs0.1 (g cs0) (hdis cs0 (List.mem_cons_self cs0 t))
    have hdis2 : ∀ cs ∈ t, dmem (dinsert base cs0.1 (g cs0)) cs.1 = false := by
      intro cs hcs
      rw [dmem_dinsert]
      rw [hdis cs (List.mem_cons_of_mem cs0 hcs)]
      rw [show (cs.1 == cs0.1) = false by
        simp only [beq_eq_false_iff_ne, ne_eq]
        intro he
        exact hnd.1 (he ▸ List.mem_map.mpr ⟨cs, hcs, rfl⟩)]
      rfl
    rw [ih (dinsert base cs0.1 (g cs0)) hdis2 hnd.2, hnew]
    rw [List.map_cons, List.append_assoc]
    rfl

theorem dlookup_foldl_dinsert_ne (g : String × String → String) :
    ∀ (specs : List (String × String)) (base : Dict) (k : String),
    (∀ cs ∈ specs, cs.1 ≠ k) →
    dlookup (specs.foldl (fun row cs => dinsert row cs.1 (g cs)) base) k = dlookup base k := by
  intro specs
  induction specs with
  | nil => intro base k _; rfl
  | cons cs0 t ih =>
    intro base k h
    rw [List.foldl_cons]
    rw [ih _ k (fun cs hcs => h cs (List.mem_cons_of_mem cs0 hcs))]
    exact dlookup_dinsert_ne base cs0.1 (g cs0) k
      (Ne.symm (h cs0 (List.mem_cons_self cs0 t)))

theorem dlookup_foldl_dinsert_mem (g : String × String → String) :
    ∀ (specs : List (String × String)) (base : Dict) (cs : String × String),
    ((specs.map (fun cs => cs.1)).Nodup) → cs ∈ specs →
    dlookup (specs.foldl (fun row cs => dinsert row cs.1 (g cs)) base) cs.1 = some (g cs) := by
  intro specs
  induction specs with
  | nil => intro base cs _ h; cases h
  | cons cs0 t ih =>
    intro base cs hnd hmem
    rw [List.map_cons, List.nodup_cons] at hnd
    rw [List.foldl_cons]
    rcases List.mem_cons.mp hmem with h1 | h2
    · subst h1
      rw [dlookup_foldl_dinsert_ne g t _ cs.1 ?_]
      · exact dlookup_dinsert_self base cs.1 (g cs)
      · intro cs2 hcs2 he
        exact hnd.1 (he ▸ List.mem_map.mpr ⟨cs2, hcs2, rfl⟩)
    · exact ih _ cs hnd.2 h2

theorem dkeys_rowFor {reg : List (String × List Nat)} (hwf : RegWF reg)
    (hN : "NAME" ∉ (columnSpecs reg).map (fun cs => cs.1))
    (hD : "DOB" ∉ (columnSpecs reg).map (fun cs => cs.1)) (r : Dict) :
    dkeys (rowFor reg r) = ["NAME", "REG NO", "DOB"] ++ (columnSpecs reg).map (fun cs => cs.1) := by
  have hdis : ∀ cs ∈ columnSpecs reg,
      dmem [("NAME", dgetD r "Student Name" ""), ("REG NO", dgetD r "Register Number" ""),
            ("DOB", dgetD r "Date of Birth" "")] cs.1 = false := by
    intro cs hcs
    have h1 : cs.1 ≠ "NAME" := by
      intro he
      exact hN (he ▸ List.mem_map.mpr ⟨cs, hcs, rfl⟩)
    have h2 : cs.1 ≠ "REG NO" := by
      intro he
      exact regno_not_col hwf (he ▸ List.mem_map.mpr ⟨cs, hcs, rfl⟩)
    have h3 : cs.1 ≠ "DOB" := by
      intro he
      exact hD (he ▸ List.mem_map.mpr ⟨cs, hcs, rfl⟩)
    rw [dmem_cons, dmem_cons, dmem_cons]
    rw [show ("NAME" == cs.1) = false by simp [Ne.symm h1]]
    rw [show ("REG NO" == cs.1) = false by simp [Ne.symm h2]]
    rw [show ("DOB" == cs.1) = false by simp [Ne.symm h3]]
    rfl
  have h := dkeys_foldl_dinsert
    (fun cs => match dlookup r cs.2 with | some v => v | none => "")
    (columnSpecs reg)
    [("NAME", dgetD r "Student Name" ""), ("REG NO", dgetD r "Register Number" ""),
     ("DOB", dgetD r "Date of Birth" "")]
    hdis (columnSpecs_fst_nodup hwf)
  exact h

theorem rowFor_sparse_fill {reg : List (String × List Nat)} (hwf : RegWF reg) (r : Dict)
    {cs : String × String} (hcs : cs ∈ columnSpecs reg) (habsent : dlookup r cs.2 = none) :
    dlookup (rowFor reg r) cs.1 = some "" := by
  have h := dlookup_foldl_dinsert_mem
    (fun cs => match dlookup r cs.2 with | some v => v | none => "")
    (columnSpecs reg)
    [("NAME", dgetD r "Student Name" ""), ("REG NO", dgetD r "Register Number" ""),
     ("DOB", dgetD r "Date of Birth" "")]
    cs (columnSpecs_fst_nodup hwf) hcs
  exact h.trans (by simp [habsent])

/-! ### C3 and C8 -/

/-- C3 (counterexample): a successful result whose only subject key is
`NAME_0` induces a registry column literally named NAME, which merges with
the leading NAME column by dict overwrite: the emitted row does not have the
claimed layout of the three leading columns followed by the registry-derived
columns. -/
theorem c3_counterexample :
    (columnSpecs (buildRegistry [[("NAME_0", "95")]])).map (fun cs => cs.1) = ["NAME"] ∧
    (process_results_for_export [[("NAME_0", "95")]]).1 =
      [[("NAME", "95"), ("REG NO", ""), ("DOB", "")]] ∧
    dkeys ((process_results_for_export [[("NAME_0", "95")]]).1.headD []) ≠
      ["NAME", "REG NO", "DOB"] ++ ["NAME"] := by
  refine ⟨by decide, by decide, by decide⟩

/-- C3 (amended): provided no registry-derived column name collides with the
leading columns (no subject code is literally NAME or DOB), every emitted
success row has columns NAME, REG NO, DOB followed by the registry-derived
column names (codes in sorted order, one column per observed position,
suffixed only when a code has several positions), one row per successful
result, and a registry column whose key is absent from a result is filled
with the empty string; the concrete conjunct shows the claimed example,
including single-position collapse and sparse fill. -/
theorem c3_success_table_shape :
    (∀ results : List Dict,
      "NAME" ∉ (columnSpecs (buildRegistry
        (results.filter (fun r => !(dmem r "Error"))))).map (fun cs => cs.1) →
      "DOB" ∉ (columnSpecs (buildRegistry
        (results.filter (fun r => !(dmem r "Error"))))).map (fun cs => cs.1) →
      ((process_results_for_export results).1.length =
        (results.filter (fun r => !(dmem r "Error"))).length ∧
       (∀ row ∈ (process_results_for_export results).1,
          dkeys row = ["NAME", "REG NO", "DOB"] ++
            (columnSpecs (buildRegistry
              (results.filter (fun r => !(dmem r "Error"))))).map (fun cs => cs.1)) ∧
       (∀ r ∈ results.filter (fun r => !(dmem r "Error")),
        ∀ cs ∈ columnSpecs (buildRegistry (results.filter (fun r => !(dmem r "Error")))),
          dlookup r cs.2 = none →
          dlookup (rowFor (buildRegistry
            (results.filter (fun r => !(dmem r "Error")))) r) cs.1 = some ""))) ∧
    process_results_for_export exResults =
      ([[("NAME", "ALICE"), ("REG NO", "111"), ("DOB", "01/01/2000"),
         ("MTH101_0", "78"), ("MTH101_2", "A"), ("PHY101", "65")],
        [("NAME", "BOB"), ("REG NO", "222"), ("DOB", "02/02/2000"),
         ("MTH101_0", "81"), ("MTH101_2", "B"), ("PHY101", "")]],
       [exFailure1]) := by
  constructor
  · intro results hN hD
    refine ⟨?_, ?_, ?_⟩
    · show ((results.filter (fun r => !(dmem r "Error"))).map
        (rowFor (buildRegistry (results.filter (fun r => !(dmem r "Error")))))).length = _
      rw [List.length_map]
    · intro row hrow
      obtain ⟨r, _, hr⟩ := List.mem_map.mp hrow
      rw [← hr]
      exact dkeys_rowFor (buildRegistry_wf _) hN hD r
    · intro r _ cs hcs habsent
      exact rowFor_sparse_fill (buildRegistry_wf _) r hcs habsent
  · decide

/-- Witness for the amended C3 theorem: the second success lacks `PHY101_0`,
and its row fills the collapsed PHY101 column with the empty string. -/
theorem c3_success_table_shape_witness :
    dlookup (rowFor (buildRegistry (exResults.filter (fun r => !(dmem r "Error"))))
      exSuccess2) "PHY101" = some "" :=
  (c3_success_table_shape.1 exResults (by decide) (by decide)).2.2 exSuccess2 (by decide)
    ("PHY101", "PHY101_0") (by decide) (by decide)

/-- C8: the normalizer's output does not depend on the iteration order of the
set/dict structures the registry is built from: any representation of the
same subject-position registry yields the same SuccessTable and FailureTable,
so normalizing the same result list twice yields identical tables. -/
theorem c8_normalizer_deterministic (results : List Dict) (rep : List (String × List Nat))
    (h : RepOf (buildRegistry (results.filter (fun r => !(dmem r "Error")))) rep) :
    processWithRep rep results = process_results_for_export results := by
  have hkeys : sortedCodes rep =
      sortedCodes (buildRegistry (results.filter (fun r => !(dmem r "Error")))) :=
    sortStrings_perm_eq _ _ h.1
  have hcols : columnSpecs rep =
      columnSpecs (buildRegistry (results.filter (fun r => !(dmem r "Error")))) := by
    unfold columnSpecs
    rw [hkeys]
    apply flatMap_congr_custom
    intro code hcode
    have hpos : sortNats (posOf rep code) =
        sortNats (posOf (buildRegistry (results.filter (fun r => !(dmem r "Error")))) code) :=
      sortNats_perm_eq _ _ (h.2 code (mem_sortedCodes hcode))
    rw [hpos]
  have hrow : ∀ r : Dict, rowFor rep r =
      rowFor (buildRegistry (results.filter (fun r => !(dmem r "Error")))) r := by
    intro r
    unfold rowFor
    rw [hcols]
  show ((results.filter (fun r => !(dmem r "Error"))).map (rowFor rep),
        results.filter (fun r => dmem r "Error")) =
       ((results.filter (fun r => !(dmem r "Error"))).map
          (rowFor (buildRegistry (results.filter (fun r => !(dmem r "Error"))))),
        results.filter (fun r => dmem r "Error"))
  rw [List.map_congr_left (fun r _ => hrow r)]

/-- Witness for C8: the reversed registry representation produces the same
export as the canonical one. -/
theorem c8_normalizer_deterministic_witness :
    processWithRep (buildRegistry (exResults.filter (fun r => !(dmem r "Error")))).reverse
      exResults = process_results_for_export exResults :=
  c8_normalizer_deterministic exResults
    (buildRegistry (exResults.filter (fun r => !(dmem r "Error")))).reverse
    (by unfold RepOf; decide)

/-- Witness for the amended C7 theorem: each path applied at a concrete page. -/
theorem c7_name_filters_witness :
    (("John Doe" == "") = false ∧ 3 < "John Doe".length ∧
      substrB "university" (lowerStr "John Doe") = false ∧
      substrB "madras" (lowerStr "John Doe") = false ∧
      substrB "institution" (lowerStr "John Doe") = false ∧
      substrB "college" (lowerStr "John Doe") = false) ∧
    (("Jane Roe" == "") = false ∧ 3 < "Jane Roe".length ∧
      substrB "university" (lowerStr "Jane Roe") = false ∧
      substrB "madras" (lowerStr "Jane Roe") = false) ∧
    (3 < "Jane d".length ∧ substrB "university" (lowerStr "Jane d") = false ∧
      substrB "madras" (lowerStr "Jane d") = false) ∧
    nameField emptyPage = "Name extraction failed" :=
  ⟨c7_name_filters.1 namePage1 "John Doe" (by decide),
   c7_name_filters.2.1 namePage2 "Jane Roe" (by decide),
   c7_name_filters.2.2.1 namePage3 "Jane d" (by decide),
   c7_name_filters.2.2.2 emptyPage rfl rfl rfl⟩

end UoM
